import Mathlib

/-! # Temperature logger (`src/main.cpp`): log-line parsing, rotation and the main loop

A shallow embedding of `parseLog`, `clearLogFile`, `logAll`, `logAverage` and the
body of the `while (true)` loop of `main`.

Modelling conventions.

* A `std::string` and the content of a file are lists of characters.
* A `std::chrono::system_clock::time_point` is its tick count, an integer number
  of nanoseconds since the Unix epoch (the representation of libstdc++), held
  in a signed 64-bit integer.  Where the program multiplies or subtracts tick
  counts the result is reduced to that range (`wrap64`), which is what the
  machine instructions of a build without optimisation compute; C++ leaves
  such an overflow undefined, and the statements about ages and elapsed times
  assume that it does not happen.
* The `double` that holds the elapsed seconds is an IEEE-754 binary64 value
  (`Double`), rounded to nearest.
* `std::mktime` and `std::localtime` are those of a time zone `zone` with a
  standard offset and, while daylight-saving time is in effect, a second offset,
  in the proleptic Gregorian calendar.
* `std::get_time` and `std::put_time` are specialised to the one format string
  the program uses, `"[%d.%m.%Y %H:%M:%S]"`, and follow libstdc++ and the "C" locale.
* The program is parametric in the operations on `float` (`FloatOps`);
  `binary32` gives them for IEEE-754 single precision with round-to-nearest,
  `strtof` and `printf("%g")`.
* The clock readings, the line read from the serial port and the outcome of
  opening a file, for reading and for writing, are inputs of the functions
  that consult them.  A file that does not exist has the empty content.
-/

namespace TempLogger

/-- A `std::string`. -/
abbrev Str := List Char

/-! ## Characters -/

/-- The `isspace` classification of the "C" locale: space, `\t`, `\n`, `\v`, `\f`, `\r`. -/
def isspace (c : Char) : Bool :=
  c = ' ' || c = '\t' || c = '\n' || c = '\x0b' || c = '\x0c' || c = '\r'

/-- The test `c >= '0' && c <= '9'`. -/
def isdigit (c : Char) : Bool :=
  decide ('0'.toNat ≤ c.toNat) && decide (c.toNat ≤ '9'.toNat)

/-- The value `c - '0'` of a digit character. -/
def digitVal (c : Char) : Nat := c.toNat - '0'.toNat

/-- The character of a decimal digit. -/
def digitChar (d : Nat) : Char :=
  match d with
  | 0 => '0' | 1 => '1' | 2 => '2' | 3 => '3' | 4 => '4'
  | 5 => '5' | 6 => '6' | 7 => '7' | 8 => '8' | _ => '9'

/-- Skipping leading whitespace (`std::ws`, and the sentry of a formatted input). -/
def skipws (s : Str) : Str := s.dropWhile isspace

/-! ## Calendar time: `struct tm`, `mktime`, `localtime` -/

/-- The fields of `struct tm` that the program uses: those that the format
`"[%d.%m.%Y %H:%M:%S]"` reads and writes, and `tm_isdst`, which `mktime` reads. -/
structure Tm where
  tm_sec : Int
  tm_min : Int
  tm_hour : Int
  tm_mday : Int
  tm_mon : Int
  tm_year : Int
  tm_isdst : Int
  deriving DecidableEq

/-- The value-initialised `std::tm tm = {}`. -/
def Tm.zero : Tm := ⟨0, 0, 0, 0, 0, 0, 0⟩

/-- A time zone: the offset from UTC in standard time, the offset while
daylight-saving time is in effect, and the instants (seconds since the epoch)
at which it is in effect. -/
structure Zone where
  /-- Seconds east of UTC in standard time. -/
  stdOffset : Int
  /-- Seconds east of UTC while daylight-saving time is in effect. -/
  dstOffset : Int
  /-- Whether daylight-saving time is in effect at an instant. -/
  isDst : Int → Bool

/-- The offset from UTC in effect at an instant. -/
def Zone.offsetAt (zone : Zone) (t : Int) : Int :=
  if zone.isDst t then zone.dstOffset else zone.stdOffset

/-- Days from 1970-01-01 to the civil date `y-m-d` (proleptic Gregorian calendar). -/
def daysFromCivil (y m d : Int) : Int :=
  let y1 := if m ≤ 2 then y - 1 else y
  let era := y1 / 400
  let yoe := y1 - era * 400
  let mp := if m > 2 then m - 3 else m + 9
  let doy := (153 * mp + 2) / 5 + d - 1
  let doe := yoe * 365 + yoe / 4 - yoe / 100 + doy
  era * 146097 + doe - 719468

/-- The civil date `(year, month, day)` of a day number counted from 1970-01-01. -/
def civilFromDays (z0 : Int) : Int × Int × Int :=
  let z := z0 + 719468
  let era := z / 146097
  let doe := z % 146097
  let c := min (doe / 36524) 3
  let doc := doe - c * 36524
  let q := doc / 1461
  let doq := doc % 1461
  let a := min (doq / 365) 3
  let doy := doq - a * 365
  let yoe := c * 100 + q * 4 + a
  let mp := (5 * doy + 2) / 153
  let d := doy - (153 * mp + 2) / 5 + 1
  let m := if mp < 10 then mp + 3 else mp - 9
  (if m ≤ 2 then era * 400 + yoe + 1 else era * 400 + yoe, m, d)

/-- The fields of a `tm` as a count of seconds: a month outside 0..11 carries
into the year, and days, hours, minutes and seconds are added linearly. -/
def Tm.seconds (tm : Tm) : Int :=
  let y := tm.tm_year + 1900 + tm.tm_mon / 12
  let m := tm.tm_mon % 12
  daysFromCivil y (m + 1) tm.tm_mday * 86400
    + tm.tm_hour * 3600 + tm.tm_min * 60 + tm.tm_sec

/-- The function `std::mktime`: the normalised fields are read as local time.
As POSIX has it, a positive `tm_isdst` makes `mktime` presume that
daylight-saving time is in effect for the fields, and zero that it is not; a
negative one leaves the decision to the zone (the program never passes one). -/
def mktime (zone : Zone) (tm : Tm) : Int :=
  if 0 < tm.tm_isdst then tm.seconds - zone.dstOffset
  else if tm.tm_isdst = 0 then tm.seconds - zone.stdOffset
  else if zone.isDst (tm.seconds - zone.stdOffset) then tm.seconds - zone.dstOffset
  else tm.seconds - zone.stdOffset

/-- The function `std::localtime`. -/
def localtime (zone : Zone) (t : Int) : Tm :=
  let l := t + zone.offsetAt t
  let c := civilFromDays (l / 86400)
  let r := l % 86400
  { tm_sec := r % 60, tm_min := r % 3600 / 60, tm_hour := r / 3600,
    tm_mday := c.2.2, tm_mon := c.2.1 - 1, tm_year := c.1 - 1900,
    tm_isdst := if zone.isDst t then 1 else 0 }

/-! ## `std::chrono::system_clock` -/

/-- Ticks of `system_clock::duration` per second (nanoseconds). -/
def ticksPerSecond : Int := 1000000000

/-- Ticks per hour: the conversion of `std::chrono::hours` to the clock's duration. -/
def ticksPerHour : Int := 3600 * ticksPerSecond

/-- The value that a signed 64-bit integer holds after an operation whose exact
result is `x`: the representative of `x` modulo `2^64` in
`-2^63 ≤ _ < 2^63`. -/
def wrap64 (x : Int) : Int :=
  (x + 9223372036854775808) % 18446744073709551616 - 9223372036854775808

/-- The conversion `system_clock::from_time_t`: a `duration_cast` of the seconds
to the clock's ticks, a multiplication by `10^9` in 64 bits.  It leaves the
range for dates before 1677 and after 2262. -/
def from_time_t (t : Int) : Int := wrap64 (t * ticksPerSecond)

/-- The conversion `system_clock::to_time_t`: a `duration_cast` to seconds, which
truncates toward zero. -/
def to_time_t (tp : Int) : Int := tp.tdiv ticksPerSecond

/-- A number that fits a signed 64-bit integer, the representation of a tick
count: no overflow occurs where the exact result of an operation is such a
number. -/
def Representable (x : Int) : Prop := -9223372036854775808 ≤ x ∧ x ≤ 9223372036854775807

instance (x : Int) : Decidable (Representable x) := by
  unfold Representable; infer_instance

/-! ## `std::put_time` with `"[%d.%m.%Y %H:%M:%S]"` -/

/-- Decimal digits of a natural number, most significant first, in front of `acc`. -/
def showNatAux : Nat → Nat → Str → Str
  | 0, _, acc => acc
  | fuel + 1, n, acc =>
    if n / 10 = 0 then digitChar (n % 10) :: acc
    else showNatAux fuel (n / 10) (digitChar (n % 10) :: acc)

/-- Decimal representation of a natural number. -/
def showNat (n : Nat) : Str := showNatAux (n + 1) n []

/-- Decimal representation of an integer, as `%Y` prints the year. -/
def showInt (n : Int) : Str :=
  if n < 0 then '-' :: showNat n.natAbs else showNat n.natAbs

/-- A field printed with at least two digits, as `%d`, `%m`, `%H`, `%M`, `%S` print. -/
def pad2 (n : Int) : Str :=
  if 0 ≤ n ∧ n < 10 then '0' :: showInt n else showInt n

/-- The text of `std::put_time(tm, "[%d.%m.%Y %H:%M:%S]")`. -/
def put_time (tm : Tm) : Str :=
  '[' :: pad2 tm.tm_mday ++ '.' :: pad2 (tm.tm_mon + 1) ++ '.' :: showInt (tm.tm_year + 1900)
    ++ ' ' :: pad2 tm.tm_hour ++ ':' :: pad2 tm.tm_min ++ ':' :: pad2 tm.tm_sec ++ [']']

/-! ## `std::get_time` with `"[%d.%m.%Y %H:%M:%S]"` -/

/-- The digit loop of `time_get::_M_extract_num`: at most `len` characters are
read; the loop stops at a non-digit and at a digit that takes the value above
`max` (that digit is not consumed).  Returns the count of digits consumed, the
value and the rest of the input. -/
def extractDigits (max : Nat) : Nat → Nat → Nat → Str → Nat × Nat × Str
  | 0, i, value, s => (i, value, s)
  | _ + 1, i, value, [] => (i, value, [])
  | len + 1, i, value, c :: s =>
    if isdigit c then
      if value * 10 + digitVal c > max then (i, value * 10 + digitVal c, c :: s)
      else extractDigits max len (i + 1) (value * 10 + digitVal c) s
    else (i, value, c :: s)

/-- The function `time_get::_M_extract_num`: the number read, or `none` for
`failbit`, with the rest of the input. -/
def extractNum (min max len : Nat) (s : Str) : Option Nat × Str :=
  match extractDigits max len 0 0 s with
  | (i, value, rest) =>
    if 0 < i ∧ min ≤ value ∧ value ≤ max then (some value, rest) else (none, rest)

/-- An element of a `get_time` format string. -/
inductive FmtItem where
  | lit (c : Char)
  | space
  | conv (c : Char)
  deriving DecidableEq

/-- The format string `"[%d.%m.%Y %H:%M:%S]"`. -/
def logTimeFormat : List FmtItem :=
  [.lit '[', .conv 'd', .lit '.', .conv 'm', .lit '.', .conv 'Y', .space,
   .conv 'H', .lit ':', .conv 'M', .lit ':', .conv 'S', .lit ']']

/-- One conversion specification (`time_get::_M_extract_via_format` on `%c`),
called on a non-empty input: the updated `tm`, whether `failbit` is clear, and
the rest of the input.  `%d` first skips one whitespace character. -/
def extractConv (c : Char) (tm : Tm) (s : Str) : Tm × Bool × Str :=
  if c = 'd' then
    let s1 := match s with
      | [] => []
      | x :: xs => if isspace x then xs else x :: xs
    match extractNum 1 31 2 s1 with
    | (some v, rest) => ({ tm with tm_mday := v }, true, rest)
    | (none, rest) => (tm, false, rest)
  else if c = 'm' then
    match extractNum 1 12 2 s with
    | (some v, rest) => ({ tm with tm_mon := (v : Int) - 1 }, true, rest)
    | (none, rest) => (tm, false, rest)
  else if c = 'Y' then
    match extractNum 0 9999 4 s with
    | (some v, rest) => ({ tm with tm_year := (v : Int) - 1900 }, true, rest)
    | (none, rest) => (tm, false, rest)
  else if c = 'H' then
    match extractNum 0 23 2 s with
    | (some v, rest) => ({ tm with tm_hour := v }, true, rest)
    | (none, rest) => (tm, false, rest)
  else if c = 'M' then
    match extractNum 0 59 2 s with
    | (some v, rest) => ({ tm with tm_min := v }, true, rest)
    | (none, rest) => (tm, false, rest)
  else if c = 'S' then
    match extractNum 0 60 2 s with
    | (some v, rest) => ({ tm with tm_sec := v }, true, rest)
    | (none, rest) => (tm, false, rest)
  else (tm, false, s)

/-- The loop of `time_get::get` over a format: returns the `tm`, whether the
error state is still `goodbit`, and the rest of the input.  The loop ends with
an error state when the input is exhausted before the format is, when a
conversion fails, when the input is exhausted right after a conversion
(`eofbit`), and when a literal character does not match (the library compares
without regard to case, which is the same thing for the punctuation of this
format).  Whitespace in the format matches any run of whitespace, also an
empty one. -/
def timeGet : List FmtItem → Tm → Str → Tm × Bool × Str
  | [], tm, s => (tm, true, s)
  | _ :: _, tm, [] => (tm, false, [])
  | .conv c :: fmt, tm, x :: xs =>
    match extractConv c tm (x :: xs) with
    | (tm1, false, rest) => (tm1, false, rest)
    | (tm1, true, []) => (tm1, false, [])
    | (tm1, true, y :: ys) => timeGet fmt tm1 (y :: ys)
  | .space :: fmt, tm, x :: xs => timeGet fmt tm (skipws (x :: xs))
  | .lit c :: fmt, tm, x :: xs =>
    if x = c then timeGet fmt tm xs else (tm, false, x :: xs)

/-- The extraction `iss >> std::get_time(&tm, "[%d.%m.%Y %H:%M:%S]")` on a fresh
stream: the sentry skips leading whitespace and fails at the end of the input. -/
def get_time (tm : Tm) (s : Str) : Tm × Bool × Str :=
  match skipws s with
  | [] => (tm, false, [])
  | x :: xs => timeGet logTimeFormat tm (x :: xs)

/-! ## `parseLog` -/

/-- The record `struct Log`. -/
structure Log where
  timestamp : Int
  data : Str
  deriving DecidableEq

/-- The call `std::getline(is, data)` on a string stream: the characters before
the first `'\n'`. -/
def getlineChars (s : Str) : Str := s.takeWhile (fun c => c != '\n')

/-- The call `std::regex_replace(data, std::regex("^\\s+|\\s+$"), "")`: the
leading and the trailing run of whitespace are removed. -/
def regexTrim (s : Str) : Str := (s.dropWhile isspace).rdropWhile isspace

/-- The function `parseLog` (main.cpp 30-44).  `tm` starts value-initialised and
`get_time` stores the fields it has read, also when it fails later in the
line; `tm_isdst` stays 0.  When `get_time` leaves the stream in an error state,
`>> delim` and `getline` extract nothing and `data` stays empty; the same
happens when the input ends before `delim`. -/
def parseLog (zone : Zone) (line : Str) : Log :=
  match get_time Tm.zero line with
  | (tm, good, rest) =>
    let timestamp := from_time_t (mktime zone tm)
    let data : Str :=
      if good then
        match skipws rest with
        | [] => []
        | _ :: rest1 => getlineChars (skipws rest1)
      else []
    { timestamp := timestamp, data := regexTrim data }

/-! ## Files -/

/-- The loop `while (std::getline(inFile, line))` over a file content: a line
ends at `'\n'` (not stored) or at the end of the file, and the loop ends when
nothing is left to extract.  `cur` holds the current line, reversed. -/
def getLinesAux : Str → Str → List Str
  | [], cur => if cur = [] then [] else [cur.reverse]
  | c :: s, cur => if c = '\n' then cur.reverse :: getLinesAux s [] else getLinesAux s (c :: cur)

/-- The lines that repeated `std::getline` reads from a file content. -/
def getLines (content : Str) : List Str := getLinesAux content []

/-- The text `put_time(localtime(&t), "[%d.%m.%Y %H:%M:%S]") << " - " << payload`
that `clearLogFile`, `logAll` and `logAverage` all write. -/
def logLine (zone : Zone) (t : Int) (payload : Str) : Str :=
  put_time (localtime zone t) ++ [' ', '-', ' '] ++ payload

/-! ## `clearLogFile` -/

/-- The reading loop of `clearLogFile` (main.cpp 51-55): `clock i` is the value
of `system_clock::now()` when line number `i` is examined.  The age
`now() - log.timestamp` is a difference of two 64-bit tick counts, and
`duration` is converted from hours to ticks for the comparison. -/
def readLogs (zone : Zone) (clock : Nat → Int) (duration : Int) :
    List Str → Nat → List Log → List Log
  | [], _, logs => logs
  | line :: rest, i, logs =>
    let log := parseLog zone line
    readLogs zone clock duration rest (i + 1)
      (if wrap64 (clock i - log.timestamp) ≤ wrap64 (duration * ticksPerHour)
        then logs ++ [log] else logs)

/-- The writing loop of `clearLogFile` (main.cpp 61-65), from an empty file. -/
def writeLogs (zone : Zone) : List Log → Str → Str
  | [], out => out
  | log :: rest, out =>
    writeLogs zone rest (out ++ (logLine zone (to_time_t log.timestamp) log.data ++ ['\n']))

/-- The function `clearLogFile` (main.cpp 46-67) as a function from the content
of the file to its new content.  `duration` counts hours.  `inFileOpen` tells
whether the input stream of main.cpp 47 could be opened: the program does not
check it, and on a stream that failed `std::getline` reads no line, so `logs`
stays empty.  `isOpen` is the result of `logFile.is_open()` on the truncating
output stream; a file that could not be opened for writing is left as it
was. -/
def clearLogFile (zone : Zone) (clock : Nat → Int) (duration : Int) (inFileOpen isOpen : Bool)
    (content : Str) : Str :=
  let logs := readLogs zone clock duration (if inFileOpen then getLines content else []) 0 []
  if isOpen then writeLogs zone logs [] else content

/-! ## `logAll` and `logAverage` -/

/-- The function `logAll` (main.cpp 69-78): `now` is the clock reading, `isOpen`
the result of `logFile.is_open()` on the appending output stream. -/
def logAll (zone : Zone) (now : Int) (isOpen : Bool) (content : Str) (message : Str) : Str :=
  let ss := logLine zone (to_time_t now) message
  if isOpen then content ++ (ss ++ ['\n']) else content

/-- The operations on `float` that the program uses.  The embedding is
parametric in them. -/
structure FloatOps (F : Type) where
  /-- The function `std::stof`; `none` when it throws (`std::invalid_argument`,
  `std::out_of_range`). -/
  stof : Str → Option F
  /-- The literal `0.0f`. -/
  zero : F
  /-- Addition of two `float`s. -/
  add : F → F → F
  /-- Division of two `float`s. -/
  div : F → F → F
  /-- The conversion `static_cast<float>(n)` of a size. -/
  ofNat : Nat → F
  /-- The text that `ss << x` writes for a `float`. -/
  toStr : F → Str

/-- The value `average` of main.cpp 82-83: `std::accumulate` from `0.0f`, divided
by the size converted to `float`. -/
def average {F : Type} (ops : FloatOps F) (temperatures : List F) : F :=
  let sum := temperatures.foldl ops.add ops.zero
  ops.div sum (ops.ofNat temperatures.length)

/-- The function `logAverage` (main.cpp 80-94): `now` is the clock reading,
`isOpen` the result of `logFile.is_open()` on the appending output stream. -/
def logAverage {F : Type} (ops : FloatOps F) (zone : Zone) (now : Int) (isOpen : Bool)
    (content : Str) (temperatures : List F) : Str :=
  if !temperatures.isEmpty then
    let ss := logLine zone (to_time_t now) (ops.toStr (average ops temperatures))
    if isOpen then content ++ (ss ++ ['\n']) else content
  else content

/-! ## `float`: IEEE-754 binary32 -/

/-- A `float`: a finite value `(-1)^neg * m * 2^e` (with `m < 2^24` and
`-149 ≤ e ≤ 104`, zero being `m = 0`, `e = 0`), an infinity, or a NaN with its
sign bit, which the output shows.  The payload of a NaN is not represented. -/
inductive Float32 where
  | finite (neg : Bool) (m : Nat) (e : Int)
  | inf (neg : Bool)
  | nan (neg : Bool)
  deriving DecidableEq

/-- The number of binary digits of a natural number (`fuel` bounds the loop). -/
def bitLengthAux : Nat → Nat → Nat
  | 0, _ => 0
  | fuel + 1, n => if n = 0 then 0 else bitLengthAux fuel (n / 2) + 1

/-- The number of binary digits of a natural number. -/
def bitLength (n : Nat) : Nat := bitLengthAux n n

/-- The integer `⌊log₂ (num / den)⌋` for positive `num` and `den`. -/
def floorLog2 (num den : Nat) : Int :=
  let d : Int := (bitLength num : Int) - (bitLength den : Int)
  let atLeast : Bool :=
    if 0 ≤ d then decide (den * 2 ^ d.toNat ≤ num) else decide (den ≤ num * 2 ^ (-d).toNat)
  if atLeast then d else d - 1

/-- The quotient `num / den` rounded to an integer, ties to even. -/
def roundHalfEven (num den : Nat) : Nat :=
  let q := num / den
  let r := num % den
  if den < 2 * r ∨ (2 * r = den ∧ q % 2 = 1) then q + 1 else q

/-- The ratio `num / (den * 2^e)` as a pair of naturals. -/
def scaleBy (num den : Nat) (e : Int) : Nat × Nat :=
  if 0 ≤ e then (num, den * 2 ^ e.toNat) else (num * 2 ^ (-e).toNat, den)

/-- The binary32 value nearest to `(-1)^neg * num / den`, ties to even: 24
significant bits, least exponent -149, and an infinity from `2^128` on. -/
def roundRatio (neg : Bool) (num den : Nat) : Float32 :=
  if num = 0 ∨ den = 0 then .finite neg 0 0
  else
    let e : Int := max (floorLog2 num den - 23) (-149)
    let q := roundHalfEven (scaleBy num den e).1 (scaleBy num den e).2
    let m := if q = 2 ^ 24 then 2 ^ 23 else q
    let e1 := if q = 2 ^ 24 then e + 1 else e
    if 104 < e1 then .inf neg
    else if m = 0 then .finite neg 0 0
    else .finite neg m e1

/-- The binary32 value nearest to `(-1)^neg * n * 2^e`. -/
def roundScaled (neg : Bool) (n : Nat) (e : Int) : Float32 :=
  if 0 ≤ e then roundRatio neg (n * 2 ^ e.toNat) 1 else roundRatio neg n (2 ^ (-e).toNat)

/-- The mantissa of a finite value as a signed integer. -/
def signedMantissa (neg : Bool) (m : Nat) : Int := if neg then -(m : Int) else m

/-- Addition of two `float`s, rounded to nearest, as the x86-64 instruction
`addss` computes it.  A NaN operand is the result; the sum of two opposite
infinities is the default NaN, whose sign bit is set.  Of two NaN operands the
instruction returns its first source, which is the right-hand operand in the
code that g++ generates for `std::accumulate` without optimisation (an
optimising build may order them the other way). -/
def Float32.add : Float32 → Float32 → Float32
  | _, .nan b => .nan b
  | .nan a, _ => .nan a
  | .inf a, .inf b => if a = b then .inf a else .nan true
  | .inf a, .finite _ _ _ => .inf a
  | .finite _ _ _, .inf b => .inf b
  | .finite na ma ea, .finite nb mb eb =>
    let e := min ea eb
    let s : Int := signedMantissa na ma * 2 ^ (ea - e).toNat
      + signedMantissa nb mb * 2 ^ (eb - e).toNat
    if s = 0 then .finite (na && nb) 0 0
    else roundScaled (decide (s < 0)) s.natAbs e

/-- Division of two `float`s, rounded to nearest, as the x86-64 instruction
`divss` computes it.  A NaN operand is the result (the dividend, if both are);
an invalid quotient is the default NaN, whose sign bit is set. -/
def Float32.div : Float32 → Float32 → Float32
  | .nan a, _ => .nan a
  | _, .nan b => .nan b
  | .inf _, .inf _ => .nan true
  | .inf a, .finite nb _ _ => .inf (a != nb)
  | .finite na _ _, .inf b => .finite (na != b) 0 0
  | .finite na ma ea, .finite nb mb eb =>
    if mb = 0 then (if ma = 0 then .nan true else .inf (na != nb))
    else if 0 ≤ ea - eb then roundRatio (na != nb) (ma * 2 ^ (ea - eb).toNat) mb
    else roundRatio (na != nb) ma (mb * 2 ^ (eb - ea).toNat)

/-- The conversion of a size to `float`. -/
def Float32.ofNat (n : Nat) : Float32 := roundRatio false n 1

/-! ### `operator<<` for `float`: `printf("%g")` with precision 6 -/

/-- The least `k ≤ fuel` with `den ≤ num * 10^k`. -/
def decimalShift : Nat → Nat → Nat → Nat → Nat
  | 0, _, _, k => k
  | fuel + 1, num, den, k => if den ≤ num then k else decimalShift fuel (num * 10) den (k + 1)

/-- The integer `⌊log₁₀ (num / den)⌋` for positive `num` and `den`. -/
def floorLog10 (num den : Nat) : Int :=
  if den ≤ num then ((showNat (num / den)).length : Int) - 1
  else -(decimalShift (den + 1) num den 0 : Int)

/-- The ratio `num / (den * 10^x)` rounded to an integer, ties to even. -/
def roundAtDecimal (num den : Nat) (x : Int) : Nat :=
  if 0 ≤ x then roundHalfEven num (den * 10 ^ x.toNat)
  else roundHalfEven (num * 10 ^ (-x).toNat) den

/-- A list of digits without its trailing zeros. -/
def stripZeros (s : Str) : Str := s.rdropWhile (fun c => c = '0')

/-- The fraction part after a decimal point, omitted when empty. -/
def fractionPart (digits : Str) : Str :=
  if stripZeros digits = [] then [] else '.' :: stripZeros digits

/-- The exponent part of the `%e` style: a sign and at least two digits. -/
def exponentPart (x : Int) : Str :=
  'e' :: (if x < 0 then '-' else '+') ::
    (if x.natAbs < 10 then '0' :: showNat x.natAbs else showNat x.natAbs)

/-- The conversion `%g` with precision 6 for the positive value `num / den`: six significant
digits, ties to even; the `%e` style when the decimal exponent is below -4 or
at least 6, the `%f` style otherwise; trailing zeros removed. -/
def formatG (num den : Nat) : Str :=
  let x0 := floorLog10 num den
  let n0 := roundAtDecimal num den (x0 - 5)
  let x := if n0 = 1000000 then x0 + 1 else x0
  let n := if n0 = 1000000 then 100000 else n0
  let digits := showNat n
  if x < -4 ∨ 6 ≤ x then
    digits.take 1 ++ fractionPart (digits.drop 1) ++ exponentPart x
  else if 0 ≤ x then
    digits.take (x.toNat + 1) ++ fractionPart (digits.drop (x.toNat + 1))
  else
    '0' :: fractionPart (List.replicate ((-x).toNat - 1) '0' ++ digits)

/-- The text that `ss << x` writes for a `float` (default flags, precision 6). -/
def Float32.toStr : Float32 → Str
  | .nan neg => if neg then ['-', 'n', 'a', 'n'] else ['n', 'a', 'n']
  | .inf neg => if neg then ['-', 'i', 'n', 'f'] else ['i', 'n', 'f']
  | .finite neg m e =>
    (if neg then ['-'] else []) ++
      (if m = 0 then ['0'] else formatG (scaleBy m 1 (-e)).1 (scaleBy m 1 (-e)).2)

/-! ### `std::stof` -/

/-- The lower-case form of an ASCII letter. -/
def toLower (c : Char) : Char :=
  if 'A'.toNat ≤ c.toNat ∧ c.toNat ≤ 'Z'.toNat then Char.ofNat (c.toNat + 32) else c

/-- Whether the input starts with a lower-case word, compared without regard to case. -/
def startsWithWord : Str → Str → Bool
  | [], _ => true
  | _ :: _, [] => false
  | w :: ws, c :: s => toLower c = w && startsWithWord ws s

/-- The number that a string of decimal digits denotes. -/
def natOfDigits (s : Str) : Nat := s.foldl (fun n c => n * 10 + digitVal c) 0

/-- The value of a hexadecimal digit. -/
def hexVal (c : Char) : Option Nat :=
  if isdigit c then some (digitVal c)
  else if 'a'.toNat ≤ (toLower c).toNat ∧ (toLower c).toNat ≤ 'f'.toNat then
    some ((toLower c).toNat - 'a'.toNat + 10)
  else none

/-- The number that a string of hexadecimal digits denotes. -/
def natOfHexDigits (s : Str) : Nat := s.foldl (fun n c => n * 16 + (hexVal c).getD 0) 0

/-- The exponent part `[eE][+-]?digits` (or `[pP]...`) in front of the input; 0
when there is none or when no digit follows. -/
def exponentValue (marker : Char) (s : Str) : Int :=
  match s with
  | c :: t =>
    if toLower c = marker then
      match t with
      | '-' :: u => -(natOfDigits (u.takeWhile isdigit) : Int)
      | '+' :: u => (natOfDigits (u.takeWhile isdigit) : Int)
      | _ => (natOfDigits (t.takeWhile isdigit) : Int)
    else 0
  | [] => 0

/-- The result of `strtof` for the exact value `(-1)^neg * num / den` with
`num > 0`: the nearest binary32 value, or `none` when `errno` becomes `ERANGE`,
which is when the result overflows and when it is tiny and inexact. -/
def roundChecked (neg : Bool) (num den : Nat) : Option Float32 :=
  let lg := floorLog2 num den
  let e : Int := max (lg - 23) (-149)
  let inexact : Bool := decide ((scaleBy num den e).1 % (scaleBy num den e).2 ≠ 0)
  let normalAfterRounding : Bool :=
    decide (-126 ≤ lg) ||
      (decide (lg = -127) &&
        decide (roundHalfEven (scaleBy num den (lg - 23)).1 (scaleBy num den (lg - 23)).2 = 2 ^ 24))
  match roundRatio neg num den with
  | .inf _ => none
  | r => if !normalAfterRounding && inexact then none else some r

/-- The conversion of `(-1)^neg * n * base^x` (`base` is 2 or 10) with the range
check of `strtof`.  A value of at least `2^200` and a value below `2^(-200)` are
out of range; they are recognised from the size of `n` and `x`. -/
def convertScaled (neg : Bool) (n : Nat) (base : Nat) (x : Int) : Option Float32 :=
  if n = 0 then some (.finite neg 0 0)
  else if 0 ≤ x ∧ 200 < (bitLength n : Int) + x then none
  else if (bitLength n : Int) + x < -200 then none
  else if 0 ≤ x then roundChecked neg (n * base ^ x.toNat) 1
  else roundChecked neg n (base ^ (-x).toNat)

/-- The number after the optional sign: `inf`, `infinity`, `nan`, a hexadecimal
or a decimal floating constant; `none` when there is no conversion and when the
value is out of range. -/
def parseUnsigned (neg : Bool) (s : Str) : Option Float32 :=
  if startsWithWord ['i', 'n', 'f'] s then some (.inf neg)
  else if startsWithWord ['n', 'a', 'n'] s then some (.nan neg)
  else
    let hexBody : Option Str :=
      match s with
      | '0' :: c :: t => if toLower c = 'x' then some t else none
      | _ => none
    let hexInt : Str := (hexBody.getD []).takeWhile (fun c => (hexVal c).isSome)
    let hexAfterInt : Str := (hexBody.getD []).dropWhile (fun c => (hexVal c).isSome)
    let hexFrac : Str :=
      match hexAfterInt with
      | '.' :: t => t.takeWhile (fun c => (hexVal c).isSome)
      | _ => []
    let hexRest : Str :=
      match hexAfterInt with
      | '.' :: t => t.dropWhile (fun c => (hexVal c).isSome)
      | _ => hexAfterInt
    if hexBody.isSome ∧ (hexInt ≠ [] ∨ hexFrac ≠ []) then
      convertScaled neg (natOfHexDigits (hexInt ++ hexFrac)) 2
        (exponentValue 'p' hexRest - 4 * (hexFrac.length : Int))
    else
      let intPart := s.takeWhile isdigit
      let afterInt := s.dropWhile isdigit
      let fracPart : Str :=
        match afterInt with
        | '.' :: t => t.takeWhile isdigit
        | _ => []
      let rest : Str :=
        match afterInt with
        | '.' :: t => t.dropWhile isdigit
        | _ => afterInt
      if intPart = [] ∧ fracPart = [] then none
      else
        convertScaled neg (natOfDigits (intPart ++ fracPart)) 10
          (exponentValue 'e' rest - (fracPart.length : Int))

/-- The call `std::stof(message)`: `strtof` on the characters up to the first NUL, after
leading whitespace and an optional sign; `none` when `std::stof` throws. -/
def stof (message : Str) : Option Float32 :=
  match skipws (message.takeWhile (fun c => c != '\x00')) with
  | '-' :: s => parseUnsigned true s
  | '+' :: s => parseUnsigned false s
  | s => parseUnsigned false s

/-- The operations on `float` of an IEEE-754 platform with round-to-nearest. -/
def binary32 : FloatOps Float32 where
  stof := stof
  zero := .finite false 0 0
  add := Float32.add
  div := Float32.div
  ofNat := Float32.ofNat
  toStr := Float32.toStr

/-! ## `double`: the elapsed seconds of `main` -/

/-- A finite `double` `(-1)^neg * m * 2^e` with `m ≤ 2^53`; `m = 2^53` stands for
`2^52 * 2^(e+1)`.  Every value that the program forms from a 64-bit tick count
lies between `2^(-30)` and `2^63` in magnitude or is zero, far from the
subnormal numbers and from overflow, so the exponent range of the format plays
no part. -/
structure Double where
  neg : Bool
  m : Nat
  e : Int
  deriving DecidableEq

/-- The `double` nearest to `(-1)^neg * num / den`, ties to even: 53 significant
bits. -/
def roundDouble (neg : Bool) (num den : Nat) : Double :=
  if num = 0 ∨ den = 0 then ⟨neg, 0, 0⟩
  else
    let e : Int := floorLog2 num den - 52
    ⟨neg, roundHalfEven (scaleBy num den e).1 (scaleBy num den e).2, e⟩

/-- The magnitude of a `double` as a ratio of naturals. -/
def Double.ratio (x : Double) : Nat × Nat := scaleBy x.m 1 (-x.e)

/-- The conversion `static_cast<double>(n)` of a 64-bit integer. -/
def Double.ofInt (n : Int) : Double := roundDouble (decide (n < 0)) n.natAbs 1

/-- The quotient `x / static_cast<double>(d)` for a positive `d` below `2^53`,
which is a `double` exactly. -/
def Double.divNat (x : Double) (d : Nat) : Double :=
  roundDouble x.neg x.ratio.1 (x.ratio.2 * d)

/-- The comparison `x >= k` with an `int` constant `k ≥ 0`, which is a
`double` exactly. -/
def Double.geNat (x : Double) (k : Nat) : Bool :=
  if x.neg then decide (x.m = 0 ∧ k = 0) else decide (k * x.ratio.2 ≤ x.ratio.1)

/-- The conversion `static_cast<int>(x)`: truncation toward zero.  A value
outside the range of `int` is undefined in C++; the x86-64 instruction
`cvttsd2si` returns `-2^31` for it. -/
def Double.toInt (x : Double) : Int :=
  let t : Int := ((x.ratio.1 / x.ratio.2 : Nat) : Int)
  let v : Int := if x.neg then -t else t
  if -2147483648 ≤ v ∧ v ≤ 2147483647 then v else -2147483648

/-- The value of `std::chrono::duration<double> elapsed = now - start`
(main.cpp 129) for the exact difference `ticks` of the two clock readings: the
difference is formed in 64 bits, and the `duration_cast` computes
`static_cast<double>(count) / static_cast<double>(1000000000)`. -/
def elapsedSeconds (ticks : Int) : Double :=
  (Double.ofInt (wrap64 ticks)).divNat 1000000000

/-! ## The loop of `main` -/

/-- The three log files. -/
inductive LogFile where
  | logFileHour
  | logFileDay
  | logFileAll
  deriving DecidableEq

/-- The variables of `main` that live across iterations, the text written to
standard output, and the contents of the three log files. -/
structure State (F : Type) where
  hourlyTemperatures : List F
  dailyTemperatures : List F
  start : Int
  stdout : Str
  hourLog : Str
  dayLog : Str
  allLog : Str

/-- What one iteration obtains from its environment: the line read from the
serial port, the clock readings in program order, and whether each stream
could be opened. -/
structure Env where
  /-- The result of `smport >> message`. -/
  message : Str
  /-- The clock reading of `logAll`. -/
  logAllNow : Int
  /-- The reading `auto now = system_clock::now()` of main.cpp 128. -/
  now : Int
  /-- The clock reading of `logAverage(logFileHour, ...)`. -/
  hourAverageNow : Int
  /-- The clock reading of `logAverage(logFileDay, ...)`. -/
  dayAverageNow : Int
  /-- The clock readings of the three calls of `clearLogFile`, by line number. -/
  clearClock : LogFile → Nat → Int
  /-- Whether the appending stream on a file opens. -/
  appendOpen : LogFile → Bool
  /-- Whether the input stream of `clearLogFile` on a file opens. -/
  readOpen : LogFile → Bool
  /-- Whether the truncating stream on a file opens. -/
  truncOpen : LogFile → Bool

/-- How an iteration ends: the loop goes on, or the process is terminated by an
exception that nothing catches. -/
inductive Outcome (F : Type) where
  | running (s : State F)
  | terminated (s : State F)

/-- The condition of main.cpp 130 for the exact difference `elapsed` of the clock
readings `now` and `start`, in ticks:
`elapsed.count() >= (60 * 60) && static_cast<int>(elapsed.count()) % (60 * 60) == 0`
on the `double` that the program holds. -/
def hourlyDue (elapsed : Int) : Bool :=
  (elapsedSeconds elapsed).geNat (60 * 60)
    && decide ((elapsedSeconds elapsed).toInt.tmod (60 * 60) = 0)

/-- The condition of main.cpp 134, `elapsed.count() >= 24 * 60 * 60`, for the
exact difference `elapsed` of the clock readings, in ticks. -/
def dailyDue (elapsed : Int) : Bool :=
  (elapsedSeconds elapsed).geNat (24 * 60 * 60)

/-- Lines 122-137 of `main` for a non-empty message: echo, `logAll`, the two
`push_back(std::stof(message))`, and the two average triggers. -/
def logReading {F : Type} (ops : FloatOps F) (zone : Zone) (env : Env) (s : State F) :
    Outcome F :=
  let s1 := { s with stdout := s.stdout ++ (env.message ++ ['\n']) }
  let s2 := { s1 with
    allLog := logAll zone env.logAllNow (env.appendOpen .logFileAll) s1.allLog env.message }
  match ops.stof env.message with
  | none => .terminated s2
  | some v =>
    let s3 := { s2 with hourlyTemperatures := s2.hourlyTemperatures ++ [v] }
    let s4 := { s3 with dailyTemperatures := s3.dailyTemperatures ++ [v] }
    let elapsed := env.now - s4.start
    let s5 :=
      if hourlyDue elapsed then
        { s4 with
          hourLog := logAverage ops zone env.hourAverageNow
            (env.appendOpen .logFileHour) s4.hourLog s4.hourlyTemperatures }
      else s4
    let s6 :=
      if dailyDue elapsed then
        { s5 with
          dayLog := logAverage ops zone env.dayAverageNow
            (env.appendOpen .logFileDay) s5.dayLog s5.dailyTemperatures,
          start := env.now }
      else s5
    .running s6

/-- Lines 139-141 of `main`: the three calls of `clearLogFile`. -/
def rotateLogs {F : Type} (zone : Zone) (env : Env) (s : State F) : State F :=
  { s with
    allLog := clearLogFile zone (env.clearClock .logFileAll) 24
      (env.readOpen .logFileAll) (env.truncOpen .logFileAll) s.allLog,
    hourLog := clearLogFile zone (env.clearClock .logFileHour) (24 * 30)
      (env.readOpen .logFileHour) (env.truncOpen .logFileHour) s.hourLog,
    dayLog := clearLogFile zone (env.clearClock .logFileDay) (24 * 365)
      (env.readOpen .logFileDay) (env.truncOpen .logFileDay) s.dayLog }

/-- One iteration of `while (true)` (main.cpp 117-142). -/
def loopIteration {F : Type} (ops : FloatOps F) (zone : Zone) (env : Env) (s : State F) :
    Outcome F :=
  if env.message = [] then .running s
  else
    match logReading ops zone env s with
    | .terminated s1 => .terminated s1
    | .running s1 => .running (rotateLogs zone env s1)

/-- The first iterations of the loop, one per element of `envs`; nothing runs
after the process has been terminated. -/
def runLoop {F : Type} (ops : FloatOps F) (zone : Zone) : List Env → State F → Outcome F
  | [], s => .running s
  | env :: envs, s =>
    match loopIteration ops zone env s with
    | .terminated s1 => .terminated s1
    | .running s1 => runLoop ops zone envs s1

/-- The values that the iterations of `envs` append to the two sequences: one per
non-empty message that `std::stof` converts. -/
def readings {F : Type} (ops : FloatOps F) (envs : List Env) : List F :=
  envs.filterMap fun env => if env.message = [] then none else ops.stof env.message

/-- The state in which the loop is entered: both sequences empty and
`start = system_clock::now()` (main.cpp 109-115). -/
def initialState (F : Type) (start : Int) (hourLog dayLog allLog : Str) : State F :=
  { hourlyTemperatures := [], dailyTemperatures := [], start := start, stdout := [],
    hourLog := hourLog, dayLog := dayLog, allLog := allLog }

/-- The state in which an iteration or a run ends. -/
def Outcome.state {F : Type} : Outcome F → State F
  | .running s => s
  | .terminated s => s

/-! ## Predicates used in the statements -/

/-- The fields of a `tm` that `put_time` prints with two digits each and a
four-digit year, and that `get_time` accepts. -/
structure Tm.Printable (tm : Tm) : Prop where
  sec : 0 ≤ tm.tm_sec ∧ tm.tm_sec ≤ 60
  min : 0 ≤ tm.tm_min ∧ tm.tm_min ≤ 59
  hour : 0 ≤ tm.tm_hour ∧ tm.tm_hour ≤ 23
  mday : 1 ≤ tm.tm_mday ∧ tm.tm_mday ≤ 31
  mon : 0 ≤ tm.tm_mon ∧ tm.tm_mon ≤ 11
  year : 1000 ≤ tm.tm_year + 1900 ∧ tm.tm_year + 1900 ≤ 9999

/-- Offsets of a time zone: below 25 hours either way, as POSIX `TZ` strings allow. -/
def Zone.Bounded (zone : Zone) : Prop :=
  (-90000 < zone.stdOffset ∧ zone.stdOffset < 90000)
    ∧ (-90000 < zone.dstOffset ∧ zone.dstOffset < 90000)

/-- An entry that survives being written as a line and parsed again: its time
of day prints with two digits a field and four for the year, daylight-saving
time is not in effect at its timestamp, the timestamp is a whole number of
seconds, and the text is one line without surrounding whitespace. -/
structure Log.Stable (zone : Zone) (log : Log) : Prop where
  printable : (localtime zone (to_time_t log.timestamp)).Printable
  standard : zone.isDst (to_time_t log.timestamp) = false
  whole : from_time_t (to_time_t log.timestamp) = log.timestamp
  oneLine : '\n' ∉ log.data
  trimmed : regexTrim log.data = log.data

/-- Whether a text follows a template in which `d` stands for any decimal digit
and every other character for itself. -/
def matchesTemplate : Str → Str → Bool
  | [], [] => true
  | t :: ts, c :: cs =>
    (if t = 'd' then isdigit c else decide (c = t)) && matchesTemplate ts cs
  | _, _ => false

/-- The shape `[DD.MM.YYYY HH:MM:SS]` of the time stamp that starts a log line. -/
def stampTemplate : Str := "[dd.dd.dddd dd:dd:dd]".toList

/-! ## Concrete inputs -/

/-- The zone of UTC. -/
def utc : Zone := { stdOffset := 0, dstOffset := 0, isDst := fun _ => false }

/-- Central European time in 2024: UTC+1, and UTC+2 from 31.03.2024 01:00 UTC
until 27.10.2024 01:00 UTC. -/
def centralEurope2024 : Zone :=
  { stdOffset := 3600, dstOffset := 7200,
    isDst := fun t => decide (1711846800 ≤ t) && decide (t < 1729990800) }

/-- A file of four lines: an entry one second older than 24 hours, a recent
entry with trailing blanks, a line that is no entry, and a recent entry whose
separator is not a dash. -/
def sampleLog : Str :=
  ("[14.06.2024 12:59:59] - 20.1\n[15.06.2024 12:00:00] - 23.5  \nnot a log line\n"
    ++ "[15.06.2024 12:30:00] x 24\n").toList

/-- The four lines of `sampleLog`. -/
def sampleLines : List Str :=
  ["[14.06.2024 12:59:59] - 20.1".toList, "[15.06.2024 12:00:00] - 23.5  ".toList,
    "not a log line".toList, "[15.06.2024 12:30:00] x 24".toList]

/-- The loop epoch of the concrete runs: 15.06.2024 09:00:00 UTC, in ticks. -/
def sampleStart : Int := 1718442000000000000

/-- An iteration that reads `message` when the clock shows `now` at every
reading and every file can be opened. -/
def sampleEnv (message : String) (now : Int) : Env :=
  { message := message.toList, logAllNow := now, now := now, hourAverageNow := now,
    dayAverageNow := now, clearClock := fun _ _ => now, appendOpen := fun _ => true,
    readOpen := fun _ => true, truncOpen := fun _ => true }

/-- The state at the start of the loop with three empty log files. -/
def sampleState : State Float32 := initialState Float32 sampleStart [] [] []

/-- The reading `23.5`, five seconds after the loop epoch. -/
def sampleReading : Env := sampleEnv "23.5" (sampleStart + 5000000000)

/-- The reading `23.5` followed by a carriage return, as a device that ends its
lines with `\r\n` sends it, five seconds after the loop epoch. -/
def sampleCrReading : Env := sampleEnv "23.5\r" (sampleStart + 5000000000)

/-- The message `N/A`, six seconds after the loop epoch. -/
def sampleBadReading : Env := sampleEnv "N/A" (sampleStart + 6000000000)

/-- The reading `22`, twenty seconds after the loop epoch. -/
def sampleLaterReading : Env := sampleEnv "22" (sampleStart + 20000000000)

/-- The reading `20`, 3600.2 seconds after the loop epoch. -/
def sampleHourReading : Env := sampleEnv "20" (sampleStart + 3600200000000)

/-- The reading `22`, 3600.7 seconds after the loop epoch. -/
def sampleHourReadingAgain : Env := sampleEnv "22" (sampleStart + 3600700000000)

/-- The reading `24.0`, 86400 seconds after the loop epoch. -/
def sampleDayReading : Env := sampleEnv "24.0" (sampleStart + 86400000000000)

/-- The state after the one iteration that reads `sampleReading`. -/
def sampleStateAfterReading : State Float32 :=
  (loopIteration binary32 utc sampleReading sampleState).state

/-- The state after the one iteration that reads `sampleLaterReading`. -/
def sampleStateAfterLaterReading : State Float32 :=
  (loopIteration binary32 utc sampleLaterReading sampleState).state


/-! # Theorems -/

/-! ## Digits -/

theorem isdigit_digitChar (d : Nat) : isdigit (digitChar d) = true := by
  unfold digitChar
  split <;> decide

theorem digitVal_digitChar {d : Nat} (h : d ≤ 9) : digitVal (digitChar d) = d := by
  interval_cases d <;> rfl

theorem isspace_digitChar (d : Nat) : isspace (digitChar d) = false := by
  unfold digitChar
  split <;> decide

theorem digitChar_ne_newline (d : Nat) : digitChar d ≠ '\n' := by
  unfold digitChar
  split <;> decide

theorem showNatAux_step (fuel n : Nat) (acc : Str) :
    showNatAux (fuel + 1) n acc =
      if n / 10 = 0 then digitChar (n % 10) :: acc
      else showNatAux fuel (n / 10) (digitChar (n % 10) :: acc) := rfl

theorem showNat_four {y : Nat} (h1 : 1000 ≤ y) (h2 : y ≤ 9999) :
    showNat y = [digitChar (y / 1000), digitChar (y / 100 % 10), digitChar (y / 10 % 10),
      digitChar (y % 10)] := by
  obtain ⟨k, rfl⟩ : ∃ k, y = k + 4 := ⟨y - 4, by omega⟩
  unfold showNat
  have e1 : (k + 4) / 10 ≠ 0 := by omega
  have e2 : (k + 4) / 10 / 10 ≠ 0 := by omega
  have e3 : (k + 4) / 10 / 10 / 10 ≠ 0 := by omega
  have e4 : (k + 4) / 10 / 10 / 10 / 10 = 0 := by omega
  have f1 : (k + 4) / 10 / 10 % 10 = (k + 4) / 100 % 10 := by omega
  have f2 : (k + 4) / 10 / 10 / 10 % 10 = (k + 4) / 1000 := by omega
  rw [showNatAux_step, if_neg e1, showNatAux_step, if_neg e2, showNatAux_step, if_neg e3,
    showNatAux_step, if_pos e4, f1, f2]

theorem showNat_one {n : Nat} (h : n < 10) : showNat n = [digitChar n] := by
  unfold showNat
  have e1 : n / 10 = 0 := by omega
  have e2 : n % 10 = n := by omega
  rw [showNatAux_step, if_pos e1, e2]

theorem showNat_two {n : Nat} (h1 : 10 ≤ n) (h2 : n < 100) :
    showNat n = [digitChar (n / 10), digitChar (n % 10)] := by
  obtain ⟨k, rfl⟩ : ∃ k, n = k + 2 := ⟨n - 2, by omega⟩
  unfold showNat
  have e1 : (k + 2) / 10 ≠ 0 := by omega
  have e2 : (k + 2) / 10 / 10 = 0 := by omega
  have e3 : (k + 2) / 10 % 10 = (k + 2) / 10 := by omega
  rw [showNatAux_step, if_neg e1, showNatAux_step, if_pos e2, e3]

theorem pad2_ofNat {n : Nat} (h : n < 100) :
    pad2 (n : Int) = [digitChar (n / 10), digitChar (n % 10)] := by
  unfold pad2 showInt
  have hn : ¬ ((n : Int) < 0) := by omega
  simp only [hn, if_false, Int.natAbs_ofNat]
  by_cases h10 : n < 10
  · have : (0 : Int) ≤ n ∧ (n : Int) < 10 := by omega
    rw [if_pos this, showNat_one h10]
    have e1 : n / 10 = 0 := by omega
    have e2 : n % 10 = n := by omega
    rw [e1, e2]; rfl
  · have : ¬ ((0 : Int) ≤ n ∧ (n : Int) < 10) := by omega
    rw [if_neg this, showNat_two (by omega) h]

theorem showInt_ofNat_four {y : Nat} (h1 : 1000 ≤ y) (h2 : y ≤ 9999) :
    showInt (y : Int) = [digitChar (y / 1000), digitChar (y / 100 % 10), digitChar (y / 10 % 10),
      digitChar (y % 10)] := by
  unfold showInt
  have hn : ¬ ((y : Int) < 0) := by omega
  simp only [hn, if_false, Int.natAbs_ofNat]
  exact showNat_four h1 h2

theorem extractNum_two {lo hi n : Nat} (h1 : lo ≤ n) (h2 : n ≤ hi) (h3 : n < 100)
    (rest : Str) :
    extractNum lo hi 2 (digitChar (n / 10) :: digitChar (n % 10) :: rest) = (some n, rest) := by
  have a1 : digitVal (digitChar (n / 10)) = n / 10 := digitVal_digitChar (by omega)
  have a2 : digitVal (digitChar (n % 10)) = n % 10 := digitVal_digitChar (by omega)
  have b1 : ¬ (n / 10 > hi) := by omega
  have b2 : ¬ (n / 10 * 10 + n % 10 > hi) := by omega
  have b3 : n / 10 * 10 + n % 10 = n := by omega
  simp only [extractNum, extractDigits, isdigit_digitChar, if_true, a1, a2, Nat.zero_mul,
    Nat.zero_add, b1, b2, if_false, b3]
  have b4 : ¬ (hi < n) := by omega
  simp [b4, h1, h2]

theorem extractNum_four {y : Nat} (h1 : 1000 ≤ y) (h2 : y ≤ 9999) (rest : Str) :
    extractNum 0 9999 4 (digitChar (y / 1000) :: digitChar (y / 100 % 10) ::
      digitChar (y / 10 % 10) :: digitChar (y % 10) :: rest) = (some y, rest) := by
  have a1 : digitVal (digitChar (y / 1000)) = y / 1000 := digitVal_digitChar (by omega)
  have a2 : digitVal (digitChar (y / 100 % 10)) = y / 100 % 10 := digitVal_digitChar (by omega)
  have a3 : digitVal (digitChar (y / 10 % 10)) = y / 10 % 10 := digitVal_digitChar (by omega)
  have a4 : digitVal (digitChar (y % 10)) = y % 10 := digitVal_digitChar (by omega)
  have b1 : ¬ (y / 1000 > 9999) := by omega
  have b2 : ¬ (y / 1000 * 10 + y / 100 % 10 > 9999) := by omega
  have b3 : ¬ ((y / 1000 * 10 + y / 100 % 10) * 10 + y / 10 % 10 > 9999) := by omega
  have b4 : ((y / 1000 * 10 + y / 100 % 10) * 10 + y / 10 % 10) * 10 + y % 10 = y := by omega
  have b5 : ¬ (y > 9999) := by omega
  simp only [extractNum, extractDigits, isdigit_digitChar, if_true, a1, a2, a3, a4,
    Nat.zero_mul, Nat.zero_add, b1, b2, b3, b4, b5, if_false]
  simp [h2]


/-! ## Calendar -/

theorem civilFromDays_spec (z : Int) :
    ∃ era c q a doy mp : Int,
      0 ≤ c ∧ c ≤ 3 ∧ 0 ≤ q ∧ q ≤ 24 ∧ 0 ≤ a ∧ a ≤ 3 ∧ 0 ≤ doy ∧ doy ≤ 365 ∧
      0 ≤ mp ∧ mp ≤ 11 ∧ mp = (5 * doy + 2) / 153 ∧
      z + 719468 = era * 146097 + c * 36524 + q * 1461 + a * 365 + doy ∧
      civilFromDays z =
        (if (if mp < 10 then mp + 3 else mp - 9) ≤ 2 then era * 400 + (c * 100 + q * 4 + a) + 1
          else era * 400 + (c * 100 + q * 4 + a),
         if mp < 10 then mp + 3 else mp - 9,
         doy - (153 * mp + 2) / 5 + 1) := by
  refine ⟨(z + 719468) / 146097, min ((z + 719468) % 146097 / 36524) 3,
    ((z + 719468) % 146097 - min ((z + 719468) % 146097 / 36524) 3 * 36524) / 1461,
    min (((z + 719468) % 146097 - min ((z + 719468) % 146097 / 36524) 3 * 36524) % 1461 / 365) 3,
    _, _, ?_, ?_, ?_, ?_, ?_, ?_, ?_, ?_, ?_, ?_, rfl, ?_, rfl⟩ <;> omega

theorem daysFromCivil_civilFromDays (z : Int) :
    daysFromCivil (civilFromDays z).1 (civilFromDays z).2.1 (civilFromDays z).2.2 = z := by
  obtain ⟨era, c, q, a, doy, mp, hc0, hc3, hq0, hq, ha0, ha3, hd0, hd, hm0, hm, hmp, hz, h⟩ :=
    civilFromDays_spec z
  rw [h]
  simp only [daysFromCivil]
  have e3 : (era * 400 + (c * 100 + q * 4 + a)) / 400 = era := by omega
  have e4 : (c * 100 + q * 4 + a) / 4 = c * 25 + q := by omega
  have e5 : (c * 100 + q * 4 + a) / 100 = c := by omega
  have e6 : era * 400 + (c * 100 + q * 4 + a) - era * 400 = c * 100 + q * 4 + a := by ring
  by_cases h10 : mp < 10
  · have h2 : ¬ (mp + 3 ≤ 2) := by omega
    have h3 : mp + 3 > 2 := by omega
    simp only [h10, h2, h3, if_true, if_false, e3]
    rw [e6, e4, e5]
    omega
  · have h2 : mp - 9 ≤ 2 := by omega
    have h3 : ¬ (mp - 9 > 2) := by omega
    simp only [h10, h2, h3, if_true, if_false]
    have e7 : era * 400 + (c * 100 + q * 4 + a) + 1 - 1 = era * 400 + (c * 100 + q * 4 + a) := by
      ring
    rw [e7, e3, e6, e4, e5]
    omega

theorem civilFromDays_month_day (z : Int) :
    1 ≤ (civilFromDays z).2.1 ∧ (civilFromDays z).2.1 ≤ 12 ∧
      1 ≤ (civilFromDays z).2.2 ∧ (civilFromDays z).2.2 ≤ 31 := by
  obtain ⟨era, c, q, a, doy, mp, hc0, hc3, hq0, hq, ha0, ha3, hd0, hd, hm0, hm, hmp, hz, h⟩ :=
    civilFromDays_spec z
  rw [h]
  simp only
  split_ifs <;> omega

theorem civilFromDays_year (z : Int) (h1 : -108000 ≤ z) (h2 : z ≤ 108000) :
    1000 ≤ (civilFromDays z).1 ∧ (civilFromDays z).1 ≤ 9999 := by
  obtain ⟨era, c, q, a, doy, mp, hc0, hc3, hq0, hq, ha0, ha3, hd0, hd, hm0, hm, hmp, hz, h⟩ :=
    civilFromDays_spec z
  rw [h]
  simp only
  split_ifs <;> omega

theorem seconds_localtime (zone : Zone) (t : Int) :
    (localtime zone t).seconds = t + zone.offsetAt t := by
  have hmd := civilFromDays_month_day ((t + zone.offsetAt t) / 86400)
  have hd := daysFromCivil_civilFromDays ((t + zone.offsetAt t) / 86400)
  simp only [Tm.seconds, localtime]
  have e1 : ((civilFromDays ((t + zone.offsetAt t) / 86400)).2.1 - 1) / 12 = 0 := by omega
  have e2 : ((civilFromDays ((t + zone.offsetAt t) / 86400)).2.1 - 1) % 12 + 1 =
      (civilFromDays ((t + zone.offsetAt t) / 86400)).2.1 := by omega
  have e3 : (civilFromDays ((t + zone.offsetAt t) / 86400)).1 - 1900 + 1900 + 0 =
      (civilFromDays ((t + zone.offsetAt t) / 86400)).1 := by ring
  rw [e1, e2, e3, hd]
  omega

/-- What `mktime` returns for the fields of `localtime` when `tm_isdst` is 0, as
`parseLog` passes them: the instant, moved by the daylight-saving shift in
effect at it. -/
theorem mktime_localtime (zone : Zone) (t : Int) :
    mktime zone { localtime zone t with tm_isdst := 0 }
      = t + (zone.offsetAt t - zone.stdOffset) := by
  have h := seconds_localtime zone t
  have e : ({ localtime zone t with tm_isdst := 0 } : Tm).seconds = (localtime zone t).seconds :=
    rfl
  simp only [mktime, lt_irrefl, if_false, if_true, e, h]
  ring

theorem mktime_localtime_standard (zone : Zone) (t : Int) (h : zone.isDst t = false) :
    mktime zone { localtime zone t with tm_isdst := 0 } = t := by
  rw [mktime_localtime]
  simp [Zone.offsetAt, h]

theorem localtime_printable (zone : Zone) (t : Int)
    (h1 : -9331200000 ≤ t + zone.offsetAt t) (h2 : t + zone.offsetAt t ≤ 9331200000) :
    (localtime zone t).Printable := by
  have hmd := civilFromDays_month_day ((t + zone.offsetAt t) / 86400)
  have hy := civilFromDays_year ((t + zone.offsetAt t) / 86400) (by omega) (by omega)
  constructor <;> simp only [localtime] <;> omega

theorem put_time_digits (s mi h d m y : Nat) (dst : Int) (hs : s < 100) (hmi : mi < 100)
    (hh : h < 100) (hd : d < 100) (hm : m < 100) (hy1 : 1000 ≤ y) (hy2 : y ≤ 9999) :
    put_time ⟨s, mi, h, d, (m : Int) - 1, (y : Int) - 1900, dst⟩ =
      '[' :: digitChar (d / 10) :: digitChar (d % 10) :: '.' ::
      digitChar (m / 10) :: digitChar (m % 10) :: '.' ::
      digitChar (y / 1000) :: digitChar (y / 100 % 10) :: digitChar (y / 10 % 10) ::
      digitChar (y % 10) :: ' ' ::
      digitChar (h / 10) :: digitChar (h % 10) :: ':' ::
      digitChar (mi / 10) :: digitChar (mi % 10) :: ':' ::
      digitChar (s / 10) :: digitChar (s % 10) :: [']'] := by
  have e1 : (m : Int) - 1 + 1 = m := by ring
  have e2 : (y : Int) - 1900 + 1900 = y := by ring
  simp only [put_time, e1, e2, pad2_ofNat hs, pad2_ofNat hmi, pad2_ofNat hh, pad2_ofNat hd,
    pad2_ofNat hm, showInt_ofNat_four hy1 hy2, List.cons_append, List.nil_append]

theorem timeGet_put_time_digits (s mi h d m y : Nat) (hs : s ≤ 60) (hmi : mi ≤ 59) (hh : h ≤ 23)
    (hd1 : 1 ≤ d) (hd : d ≤ 31) (hm1 : 1 ≤ m) (hm : m ≤ 12) (hy1 : 1000 ≤ y) (hy2 : y ≤ 9999)
    (tm0 : Tm) (rest : Str) :
    get_time tm0 ('[' :: digitChar (d / 10) :: digitChar (d % 10) :: '.' ::
      digitChar (m / 10) :: digitChar (m % 10) :: '.' ::
      digitChar (y / 1000) :: digitChar (y / 100 % 10) :: digitChar (y / 10 % 10) ::
      digitChar (y % 10) :: ' ' ::
      digitChar (h / 10) :: digitChar (h % 10) :: ':' ::
      digitChar (mi / 10) :: digitChar (mi % 10) :: ':' ::
      digitChar (s / 10) :: digitChar (s % 10) :: ']' :: rest) =
      (⟨s, mi, h, d, (m : Int) - 1, (y : Int) - 1900, tm0.tm_isdst⟩, true, rest) := by
  have k1 : skipws ('[' :: digitChar (d / 10) :: digitChar (d % 10) :: '.' ::
      digitChar (m / 10) :: digitChar (m % 10) :: '.' ::
      digitChar (y / 1000) :: digitChar (y / 100 % 10) :: digitChar (y / 10 % 10) ::
      digitChar (y % 10) :: ' ' ::
      digitChar (h / 10) :: digitChar (h % 10) :: ':' ::
      digitChar (mi / 10) :: digitChar (mi % 10) :: ':' ::
      digitChar (s / 10) :: digitChar (s % 10) :: ']' :: rest) = _ :=
    List.dropWhile_cons_of_neg (by decide)
  have k2 : ∀ r : Str, skipws (' ' :: digitChar (h / 10) :: r) = digitChar (h / 10) :: r := by
    intro r
    unfold skipws
    rw [List.dropWhile_cons_of_pos (by decide),
      List.dropWhile_cons_of_neg (by simp [isspace_digitChar])]
  unfold get_time
  rw [k1]
  simp only [logTimeFormat, timeGet, extractConv, isspace_digitChar,
    extractNum_two hd1 hd (by omega), extractNum_two hm1 hm (by omega),
    extractNum_four hy1 hy2, extractNum_two (Nat.zero_le h) hh (by omega),
    extractNum_two (Nat.zero_le mi) hmi (by omega), extractNum_two (Nat.zero_le s) hs (by omega),
    k2, if_true, if_false, Char.reduceEq, Bool.false_eq_true]


theorem get_time_put_time (tm : Tm) (h : tm.Printable) (tm0 : Tm) (rest : Str) :
    get_time tm0 (put_time tm ++ rest) = ({ tm with tm_isdst := tm0.tm_isdst }, true, rest) := by
  obtain ⟨s, mi, hr, d, mo, yr, dst⟩ := tm
  obtain ⟨⟨hs0, hs1⟩, ⟨hmi0, hmi1⟩, ⟨hh0, hh1⟩, ⟨hd0, hd1⟩, ⟨hm0, hm1⟩, ⟨hy0, hy1⟩⟩ := h
  simp only at hs0 hs1 hmi0 hmi1 hh0 hh1 hd0 hd1 hm0 hm1 hy0 hy1
  obtain ⟨s, rfl⟩ := Int.eq_ofNat_of_zero_le hs0
  obtain ⟨mi, rfl⟩ := Int.eq_ofNat_of_zero_le hmi0
  obtain ⟨hr, rfl⟩ := Int.eq_ofNat_of_zero_le hh0
  obtain ⟨d, rfl⟩ := Int.eq_ofNat_of_zero_le (by omega : (0 : Int) ≤ d)
  obtain ⟨m, hm⟩ := Int.eq_ofNat_of_zero_le (by omega : (0 : Int) ≤ mo + 1)
  obtain ⟨y, hy⟩ := Int.eq_ofNat_of_zero_le (by omega : (0 : Int) ≤ yr + 1900)
  obtain rfl : mo = (m : Int) - 1 := by omega
  obtain rfl : yr = (y : Int) - 1900 := by omega
  rw [put_time_digits s mi hr d m y dst (by omega) (by omega) (by omega) (by omega) (by omega)
    (by omega) (by omega)]
  exact timeGet_put_time_digits s mi hr d m y (by omega) (by omega) (by omega) (by omega)
    (by omega) (by omega) (by omega) (by omega) (by omega) tm0 rest

/-! ## Whitespace and lines -/

theorem skipws_skipws (s : Str) : skipws (skipws s) = skipws s :=
  List.dropWhile_idempotent _ _

theorem getlineChars_eq_self {s : Str} (h : '\n' ∉ s) : getlineChars s = s := by
  unfold getlineChars
  rw [List.takeWhile_eq_self_iff]
  intro c hc
  have : c ≠ '\n' := fun e => h (e ▸ hc)
  simpa using this

theorem newline_not_mem_getlineChars (s : Str) : '\n' ∉ getlineChars s := by
  intro h
  have := List.mem_takeWhile_imp h
  simp at this

theorem newline_not_mem_skipws {s : Str} (h : '\n' ∉ s) : '\n' ∉ skipws s :=
  fun hc => h ((List.dropWhile_sublist _).subset hc)

theorem newline_not_mem_regexTrim {s : Str} (h : '\n' ∉ s) : '\n' ∉ regexTrim s := by
  intro hc
  unfold regexTrim at hc
  have h1 : '\n' ∈ s.dropWhile isspace := (List.rdropWhile_prefix _ _).subset hc
  exact h ((List.dropWhile_sublist _).subset h1)

theorem regexTrim_skipws (s : Str) : regexTrim (skipws s) = regexTrim s := by
  unfold regexTrim skipws
  rw [List.dropWhile_idempotent]

theorem skipws_regexTrim (s : Str) : skipws (regexTrim s) = regexTrim s := by
  unfold regexTrim skipws
  generalize hl : s.dropWhile isspace = l
  cases l with
  | nil => simp [List.rdropWhile]
  | cons a t =>
    have ha : ¬ isspace a = true := by
      have := List.head_dropWhile_not isspace s (by rw [hl]; simp)
      simpa [hl] using this
    have hne : (a :: t).rdropWhile isspace ≠ [] := by
      intro e
      rw [List.rdropWhile_eq_nil_iff] at e
      exact ha (e a (List.mem_cons_self a t))
    obtain ⟨u, hu⟩ := List.rdropWhile_prefix isspace (a :: t)
    cases hr : (a :: t).rdropWhile isspace with
    | nil => exact absurd hr hne
    | cons b r =>
      rw [hr] at hu
      have hb : b = a := by
        have := congrArg List.head? hu
        simpa using this
      subst hb
      exact List.dropWhile_cons_of_neg ha

theorem regexTrim_regexTrim (s : Str) : regexTrim (regexTrim s) = regexTrim s := by
  have h : (regexTrim s).dropWhile isspace = regexTrim s := skipws_regexTrim s
  have e : regexTrim (regexTrim s) = ((regexTrim s).dropWhile isspace).rdropWhile isspace := rfl
  rw [e, h]
  exact List.rdropWhile_idempotent _ _



theorem wrap64_representable (x : Int) : Representable (wrap64 x) := by
  unfold Representable wrap64
  omega

theorem wrap64_eq_self {x : Int} (h : Representable x) : wrap64 x = x := by
  unfold Representable at h
  unfold wrap64
  omega

theorem to_time_t_from_time_t (t : Int) (h : Representable (t * ticksPerSecond)) :
    to_time_t (from_time_t t) = t := by
  unfold from_time_t
  rw [wrap64_eq_self h]
  unfold to_time_t ticksPerSecond
  exact Int.mul_tdiv_cancel t (by decide)

/-- The entry that `parseLog` reads back from a written line: the time moved by
the daylight-saving shift in effect at it, and the first line of the payload
without its surrounding whitespace. -/
theorem parseLog_logLine (zone : Zone) (t : Int) (h : (localtime zone t).Printable) (d : Str) :
    parseLog zone (logLine zone t d) =
      { timestamp := from_time_t (t + (zone.offsetAt t - zone.stdOffset)),
        data := regexTrim (getlineChars (skipws d)) } := by
  have e : logLine zone t d = put_time (localtime zone t) ++ (' ' :: '-' :: ' ' :: d) := by
    simp [logLine]
  have k1 : skipws (' ' :: '-' :: ' ' :: d) = '-' :: ' ' :: d := by
    unfold skipws
    rw [List.dropWhile_cons_of_pos (by decide), List.dropWhile_cons_of_neg (by decide)]
  have k2 : skipws (' ' :: d) = skipws d := by
    unfold skipws
    rw [List.dropWhile_cons_of_pos (by decide)]
  have k3 : ({ localtime zone t with tm_isdst := Tm.zero.tm_isdst } : Tm)
      = { localtime zone t with tm_isdst := 0 } := rfl
  unfold parseLog
  rw [e, get_time_put_time _ h]
  simp only [k1, k2, k3, if_true, mktime_localtime]

theorem newline_not_mem_put_time (tm : Tm) (h : tm.Printable) : '\n' ∉ put_time tm := by
  obtain ⟨s, mi, hr, d, mo, yr, dst⟩ := tm
  obtain ⟨⟨hs0, hs1⟩, ⟨hmi0, hmi1⟩, ⟨hh0, hh1⟩, ⟨hd0, hd1⟩, ⟨hm0, hm1⟩, ⟨hy0, hy1⟩⟩ := h
  simp only at hs0 hs1 hmi0 hmi1 hh0 hh1 hd0 hd1 hm0 hm1 hy0 hy1
  obtain ⟨s, rfl⟩ := Int.eq_ofNat_of_zero_le hs0
  obtain ⟨mi, rfl⟩ := Int.eq_ofNat_of_zero_le hmi0
  obtain ⟨hr, rfl⟩ := Int.eq_ofNat_of_zero_le hh0
  obtain ⟨d, rfl⟩ := Int.eq_ofNat_of_zero_le (by omega : (0 : Int) ≤ d)
  obtain ⟨m, hm⟩ := Int.eq_ofNat_of_zero_le (by omega : (0 : Int) ≤ mo + 1)
  obtain ⟨y, hy⟩ := Int.eq_ofNat_of_zero_le (by omega : (0 : Int) ≤ yr + 1900)
  obtain rfl : mo = (m : Int) - 1 := by omega
  obtain rfl : yr = (y : Int) - 1900 := by omega
  rw [put_time_digits s mi hr d m y dst (by omega) (by omega) (by omega) (by omega) (by omega)
    (by omega) (by omega)]
  simp only [List.mem_cons, List.mem_singleton, not_or, List.not_mem_nil, or_false]
  refine ⟨by decide, ?_, ?_, by decide, ?_, ?_, by decide, ?_, ?_, ?_, ?_, by decide, ?_, ?_,
    by decide, ?_, ?_, by decide, ?_, ?_, by decide⟩ <;>
  exact fun e => digitChar_ne_newline _ e.symm


theorem getLinesAux_append_newline (l : Str) (h : '\n' ∉ l) (rest cur : Str) :
    getLinesAux (l ++ '\n' :: rest) cur = (cur.reverse ++ l) :: getLinesAux rest [] := by
  induction l generalizing cur with
  | nil => simp [getLinesAux]
  | cons c l ih =>
    have hc : c ≠ '\n' := fun e => h (e ▸ List.mem_cons_self _ _)
    have hl : '\n' ∉ l := fun e => h (List.mem_cons_of_mem _ e)
    rw [List.cons_append, getLinesAux, if_neg hc, ih hl]
    simp

theorem getLines_append_newline (l : Str) (h : '\n' ∉ l) (rest : Str) :
    getLines (l ++ '\n' :: rest) = l :: getLines rest := by
  unfold getLines
  rw [getLinesAux_append_newline l h]
  simp

theorem writeLogs_eq_append (zone : Zone) (logs : List Log) (out : Str) :
    writeLogs zone logs out =
      out ++ (logs.map fun log => logLine zone (to_time_t log.timestamp) log.data ++ ['\n']).flatten := by
  induction logs generalizing out with
  | nil => simp [writeLogs]
  | cons e rest ih =>
    simp only [writeLogs, List.map_cons, List.flatten_cons]
    rw [ih]
    simp

theorem readLogs_const (zone : Zone) (now duration : Int) (lines : List Str) (i : Nat) (logs : List Log) :
    readLogs zone (fun _ => now) duration lines i logs =
      logs ++ (lines.map (parseLog zone)).filter
        (fun log => decide (wrap64 (now - log.timestamp) ≤ wrap64 (duration * ticksPerHour))) := by
  induction lines generalizing i logs with
  | nil => simp [readLogs]
  | cons line rest ih =>
    simp only [readLogs, List.map_cons]
    rw [ih]
    by_cases hc : wrap64 (now - (parseLog zone line).timestamp) ≤ wrap64 (duration * ticksPerHour)
    · rw [if_pos hc, List.filter_cons, if_pos (decide_eq_true hc), List.append_assoc]
      rfl
    · rw [if_neg hc, List.filter_cons, if_neg (by simpa using hc)]



theorem to_time_t_eq (ts : Int) :
    to_time_t ts = if 0 ≤ ts then ts / 1000000000 else -((-ts) / 1000000000) := by
  unfold to_time_t ticksPerSecond
  split_ifs with h
  · exact Int.tdiv_eq_ediv h (by decide)
  · have e : ts.tdiv 1000000000 = -((-ts).tdiv 1000000000) := by
      rw [Int.neg_tdiv, neg_neg]
    rw [e, Int.tdiv_eq_ediv (by omega) (by decide)]

theorem printable_of_representable {zone : Zone} (htz : zone.Bounded) {ts : Int}
    (h : Representable ts) : (localtime zone (to_time_t ts)).Printable := by
  obtain ⟨h1, h2⟩ := h
  obtain ⟨⟨z1, z2⟩, ⟨z3, z4⟩⟩ := htz
  have a1 : -9223372037 < to_time_t ts := by
    rw [to_time_t_eq]; split_ifs <;> omega
  have a2 : to_time_t ts < 9223372037 := by
    rw [to_time_t_eq]; split_ifs <;> omega
  have a3 : -90000 < zone.offsetAt (to_time_t ts) ∧ zone.offsetAt (to_time_t ts) < 90000 := by
    unfold Zone.offsetAt
    split_ifs
    · exact ⟨z3, z4⟩
    · exact ⟨z1, z2⟩
  exact localtime_printable zone _ (by omega) (by omega)

theorem from_time_t_to_time_t {ts : Int} (h : Representable ts)
    (hwhole : ts % ticksPerSecond = 0) : from_time_t (to_time_t ts) = ts := by
  have e : to_time_t ts * ticksPerSecond = ts := by
    rw [to_time_t_eq]
    unfold ticksPerSecond at *
    split_ifs <;> omega
  unfold from_time_t
  rw [e, wrap64_eq_self h]

theorem parseLog_timestamp_representable (zone : Zone) (line : Str) :
    Representable (parseLog zone line).timestamp := by
  simp only [parseLog, from_time_t]
  exact wrap64_representable _

theorem parseLog_stable {zone : Zone} (htz : zone.Bounded) (line : Str)
    (hwhole : (parseLog zone line).timestamp % ticksPerSecond = 0)
    (hstd : zone.isDst (to_time_t (parseLog zone line).timestamp) = false) :
    (parseLog zone line).Stable zone := by
  refine ⟨printable_of_representable htz (parseLog_timestamp_representable zone line), hstd,
    from_time_t_to_time_t (parseLog_timestamp_representable zone line) hwhole, ?_, ?_⟩
  · simp only [parseLog]
    apply newline_not_mem_regexTrim
    split_ifs
    · split
      · simp
      · exact newline_not_mem_getlineChars _
    · simp
  · simp only [parseLog]
    exact regexTrim_regexTrim _

theorem parseLog_logLine_of_stable {zone : Zone} {log : Log} (h : log.Stable zone) :
    parseLog zone (logLine zone (to_time_t log.timestamp) log.data) = log := by
  rw [parseLog_logLine zone _ h.printable]
  have e0 : zone.offsetAt (to_time_t log.timestamp) - zone.stdOffset = 0 := by
    simp [Zone.offsetAt, h.standard]
  rw [e0, add_zero, h.whole]
  have e1 : getlineChars (skipws log.data) = skipws log.data :=
    getlineChars_eq_self (newline_not_mem_skipws h.oneLine)
  rw [e1, regexTrim_skipws, h.trimmed]

theorem newline_not_mem_logLine {zone : Zone} {log : Log} (h : log.Stable zone) :
    '\n' ∉ logLine zone (to_time_t log.timestamp) log.data := by
  unfold logLine
  simp only [List.mem_append, not_or]
  exact ⟨⟨newline_not_mem_put_time _ h.printable, by decide⟩, h.oneLine⟩

theorem parse_written_lines {zone : Zone} (logs : List Log) (h : ∀ log ∈ logs, log.Stable zone) :
    (getLines (logs.map fun log =>
      logLine zone (to_time_t log.timestamp) log.data ++ ['\n']).flatten).map (parseLog zone)
      = logs := by
  induction logs with
  | nil => rfl
  | cons e rest ih =>
    have he := h e (List.mem_cons_self _ _)
    have hr : ∀ log ∈ rest, log.Stable zone := fun log hl => h log (List.mem_cons_of_mem _ hl)
    simp only [List.map_cons, List.flatten_cons, List.append_assoc, List.singleton_append]
    rw [getLines_append_newline _ (newline_not_mem_logLine he), List.map_cons,
      parseLog_logLine_of_stable he]
    congr 1
    exact ih hr

theorem clearLogFile_const (zone : Zone) (now duration : Int) (content : Str) :
    clearLogFile zone (fun _ => now) duration true true content =
      ((((getLines content).map (parseLog zone)).filter
        (fun log => decide (wrap64 (now - log.timestamp) ≤ wrap64 (duration * ticksPerHour)))).map
        fun log => logLine zone (to_time_t log.timestamp) log.data ++ ['\n']).flatten := by
  simp only [clearLogFile, readLogs_const, writeLogs_eq_append, if_true, List.nil_append]
/-! ## The `double` of the elapsed seconds -/
theorem bitLengthAux_zero (fuel : Nat) : bitLengthAux fuel 0 = 0 := by
  cases fuel <;> simp [bitLengthAux]

theorem bitLengthAux_bounds (fuel n : Nat) (h : n ≤ fuel) :
    n < 2 ^ bitLengthAux fuel n ∧ (n ≠ 0 → 2 ^ (bitLengthAux fuel n - 1) ≤ n) := by
  induction fuel generalizing n with
  | zero =>
    have : n = 0 := by omega
    subst this
    simp [bitLengthAux]
  | succ fuel ih =>
    by_cases hn : n = 0
    · subst hn
      simp [bitLengthAux]
    · simp only [bitLengthAux, if_neg hn]
      obtain ⟨a, b⟩ := ih (n / 2) (by omega)
      refine ⟨?_, fun _ => ?_⟩
      · rw [pow_succ]
        omega
      · simp only [Nat.add_sub_cancel]
        by_cases h2 : n / 2 = 0
        · rw [h2, bitLengthAux_zero]
          simp
          omega
        · have b2 := b h2
          have hk : bitLengthAux fuel (n / 2) ≠ 0 := by
            intro e
            rw [e] at a
            simp at a
            exact h2 a
          obtain ⟨k, hk2⟩ : ∃ k, bitLengthAux fuel (n / 2) = k + 1 := ⟨_, (Nat.succ_pred hk).symm⟩
          rw [hk2] at b2 ⊢
          simp only [Nat.add_sub_cancel] at b2
          rw [pow_succ]
          omega

theorem bitLength_lt (n : Nat) : n < 2 ^ bitLength n :=
  (bitLengthAux_bounds n n (le_refl n)).1

theorem bitLength_le {n : Nat} (h : n ≠ 0) : 2 ^ (bitLength n - 1) ≤ n :=
  (bitLengthAux_bounds n n (le_refl n)).2 h

theorem bitLength_pos {n : Nat} (h : n ≠ 0) : 0 < bitLength n := by
  by_contra hc
  have e : bitLength n = 0 := by omega
  have := bitLength_lt n
  rw [e] at this
  omega

/-- The lower half of the specification of `floorLog2`: `2^L ≤ num / den`. -/
theorem floorLog2_le {num den : Nat} (hn : num ≠ 0) (hd : den ≠ 0) :
    (0 ≤ floorLog2 num den → den * 2 ^ (floorLog2 num den).toNat ≤ num)
      ∧ (floorLog2 num den < 0 → den ≤ num * 2 ^ (-floorLog2 num den).toNat) := by
  have a1 := bitLength_le hn
  have b1 := bitLength_lt den
  have a0 := bitLength_pos hn
  have b0 := bitLength_pos hd
  unfold floorLog2
  simp only
  generalize bitLength num = a at *
  generalize bitLength den = b at *
  by_cases hd0 : (0 : Int) ≤ (a : Int) - b
  · rw [if_pos hd0]
    by_cases hat : den * 2 ^ ((a : Int) - b).toNat ≤ num
    · simp only [hat, decide_True, if_true]
      exact ⟨fun _ => trivial, fun h => absurd h (by omega)⟩
    · simp only [hat, decide_False, if_false, Bool.false_eq_true]
      constructor
      · intro hL
        have e1 : ((a : Int) - b - 1).toNat = a - 1 - b := by omega
        rw [e1]
        calc den * 2 ^ (a - 1 - b) ≤ 2 ^ b * 2 ^ (a - 1 - b) :=
              Nat.mul_le_mul_right _ (le_of_lt b1)
          _ = 2 ^ (a - 1) := by rw [← pow_add]; congr 1; omega
          _ ≤ num := a1
      · intro hL
        have e0 : a = b := by omega
        have e1 : (-((a : Int) - b - 1)).toNat = 1 := by omega
        rw [e1]
        subst e0
        have : 2 ^ a = 2 ^ (a - 1) * 2 := by
          rw [← pow_succ]; congr 1; omega
        omega
  · rw [if_neg hd0]
    by_cases hat : den ≤ num * 2 ^ (-((a : Int) - b)).toNat
    · simp only [hat, decide_True, if_true]
      exact ⟨fun h => absurd h hd0, fun _ => trivial⟩
    · simp only [hat, decide_False, if_false, Bool.false_eq_true]
      refine ⟨fun h => absurd h (by omega), fun _ => ?_⟩
      have e1 : (-((a : Int) - b - 1)).toNat = b - (a - 1) := by omega
      rw [e1]
      calc den ≤ 2 ^ b := le_of_lt b1
        _ = 2 ^ (a - 1) * 2 ^ (b - (a - 1)) := by rw [← pow_add]; congr 1; omega
        _ ≤ num * 2 ^ (b - (a - 1)) := Nat.mul_le_mul_right _ a1

theorem roundHalfEven_ge (num den : Nat) : num / den ≤ roundHalfEven num den := by
  unfold roundHalfEven
  simp only
  split_ifs <;> omega

theorem roundHalfEven_one (n : Nat) : roundHalfEven n 1 = n := by
  unfold roundHalfEven
  simp only [Nat.div_one, Nat.mod_one]
  rw [if_neg (by omega)]

theorem roundHalfEven_mul_right (a b c : Nat) (hc : 0 < c) :
    roundHalfEven (a * c) (b * c) = roundHalfEven a b := by
  unfold roundHalfEven
  simp only
  rw [Nat.mul_div_mul_right _ _ hc, Nat.mul_mod_mul_right]
  have e1 : b * c < 2 * (a % b * c) ↔ b < 2 * (a % b) := by
    rw [← Nat.mul_assoc]
    exact Nat.mul_lt_mul_right hc
  have e2 : 2 * (a % b * c) = b * c ↔ 2 * (a % b) = b := by
    rw [← Nat.mul_assoc]
    exact Nat.mul_left_inj (by omega)
  simp only [e1, e2]

/-- Rounding the quotient by `10^9` at a binary position of at most `2^(-29)`
does not reach the next whole number. -/
theorem roundHalfEven_scaled_div (n P : Nat) (hP : 2 ^ 29 ≤ P) :
    roundHalfEven (n * P) 1000000000 / P = n / 1000000000 := by
  have hP0 : 0 < P := by
    have : 0 < 2 ^ 29 := by norm_num
    omega
  have hP1 : 536870912 ≤ P := by norm_num at hP; exact hP
  have hn : n = 1000000000 * (n / 1000000000) + n % 1000000000 := (Nat.div_add_mod n _).symm
  have hr : n % 1000000000 < 1000000000 := Nat.mod_lt _ (by norm_num)
  generalize n / 1000000000 = k at *
  generalize n % 1000000000 = r at *
  have hN : n * P = 1000000000 * (k * P) + r * P := by rw [hn]; ring
  have hy : r * P + P ≤ 1000000000 * P := by
    have : (r + 1) * P ≤ 1000000000 * P := Nat.mul_le_mul_right P (by omega)
    calc r * P + P = (r + 1) * P := by ring
      _ ≤ 1000000000 * P := this
  have hq : n * P = 1000000000 * (n * P / 1000000000) + n * P % 1000000000 :=
    (Nat.div_add_mod _ _).symm
  have hr0 : n * P % 1000000000 < 1000000000 := Nat.mod_lt _ (by norm_num)
  obtain ⟨x, hx⟩ : ∃ x, x = k * P := ⟨_, rfl⟩
  rw [← hx] at hN
  generalize r * P = y at *
  have lower : x ≤ roundHalfEven (n * P) 1000000000 := by
    refine le_trans ?_ (roundHalfEven_ge _ _)
    omega
  have upper : roundHalfEven (n * P) 1000000000 < x + P := by
    unfold roundHalfEven
    simp only
    split_ifs with h
    · omega
    · omega
  apply Nat.div_eq_of_lt_le
  · rw [← hx]; exact lower
  · have : (k + 1) * P = x + P := by rw [hx]; ring
    rw [this]; exact upper

theorem roundDouble_neg (neg : Bool) (num den : Nat) : (roundDouble neg num den).neg = neg := by
  unfold roundDouble
  split_ifs <;> rfl

theorem Double.ratio_pos (x : Double) : 0 < x.ratio.2 := by
  unfold Double.ratio scaleBy
  split_ifs
  · simp
  · simp

/-- A positive integer below `2^53` converts to `double` exactly. -/
theorem Double.ofInt_exact (n : Nat) (h0 : n ≠ 0) (h1 : n < 2 ^ 53) :
    ∃ c, 0 < c ∧ (roundDouble false n 1).ratio = (n * c, c) := by
  obtain ⟨s1, -⟩ := floorLog2_le h0 (one_ne_zero)
  unfold roundDouble
  rw [if_neg (by simp [h0])]
  simp only
  have hL : floorLog2 n 1 ≤ 52 := by
    by_contra hc
    have h53 : 53 ≤ (floorLog2 n 1).toNat := by omega
    have := s1 (by omega)
    have : 2 ^ 53 ≤ 2 ^ (floorLog2 n 1).toNat := Nat.pow_le_pow_right (by norm_num) h53
    omega
  generalize floorLog2 n 1 = L at *
  by_cases he : L - 52 < 0
  · refine ⟨2 ^ (-(L - 52)).toNat, by positivity, ?_⟩
    unfold Double.ratio scaleBy
    simp only [if_neg (not_le.mpr he), roundHalfEven_one]
    rw [if_pos (by omega)]
    simp
  · have e : L - 52 = 0 := by omega
    refine ⟨1, by norm_num, ?_⟩
    unfold Double.ratio scaleBy
    rw [e]
    simp [roundHalfEven_one]

/-- The quotient of an exact tick count below `2^24` seconds by `10^9`, rounded
to `double`, has the whole part of the exact quotient. -/
theorem roundDouble_div_floor (n c : Nat) (h0 : n ≠ 0) (hc : 0 < c)
    (h1 : n < 2 ^ 24 * 1000000000) :
    (roundDouble false (n * c) (c * 1000000000)).ratio.1
        / (roundDouble false (n * c) (c * 1000000000)).ratio.2 = n / 1000000000 := by
  have hnum : n * c ≠ 0 := Nat.mul_ne_zero h0 (by omega)
  have hden : c * 1000000000 ≠ 0 := Nat.mul_ne_zero (by omega) (by norm_num)
  obtain ⟨s1, -⟩ := floorLog2_le hnum hden
  unfold roundDouble
  rw [if_neg (by simp [hnum, hden])]
  simp only
  have hL : floorLog2 (n * c) (c * 1000000000) ≤ 23 := by
    by_contra hcon
    have h24 : 24 ≤ (floorLog2 (n * c) (c * 1000000000)).toNat := by omega
    have a := s1 (by omega)
    have b : 2 ^ 24 ≤ 2 ^ (floorLog2 (n * c) (c * 1000000000)).toNat :=
      Nat.pow_le_pow_right (by norm_num) h24
    have d : c * 1000000000 * 2 ^ 24 ≤ n * c :=
      le_trans (Nat.mul_le_mul_left _ b) a
    have d2 : n * c < 2 ^ 24 * 1000000000 * c := Nat.mul_lt_mul_of_pos_right h1 hc
    have d3 : c * 1000000000 * 2 ^ 24 = 2 ^ 24 * 1000000000 * c := by ring
    omega
  generalize floorLog2 (n * c) (c * 1000000000) = L at *
  have he : ¬ (0 ≤ L - 52) := by omega
  have hs : 29 ≤ (-(L - 52)).toNat := by omega
  unfold Double.ratio scaleBy
  simp only [if_neg he]
  rw [if_pos (by omega)]
  simp only [neg_neg, one_mul]
  generalize (-(L - 52)).toNat = s at *
  have e1 : n * c * 2 ^ s = n * 2 ^ s * c := by ring
  have e2 : c * 1000000000 = 1000000000 * c := by ring
  rw [e1, e2, roundHalfEven_mul_right _ _ _ hc]
  exact roundHalfEven_scaled_div n (2 ^ s) (Nat.pow_le_pow_right (by norm_num) hs)

/-- Rounding to `double` does not go below a whole number under the exact value. -/
theorem roundDouble_ge (num den K : Nat) (hnum : num ≠ 0) (hden : den ≠ 0) (hK : K < 2 ^ 53)
    (h : K * den ≤ num) :
    K * (roundDouble false num den).ratio.2 ≤ (roundDouble false num den).ratio.1 := by
  obtain ⟨s1, s2⟩ := floorLog2_le hnum hden
  unfold roundDouble
  rw [if_neg (by simp [hnum, hden])]
  simp only
  generalize floorLog2 num den = L at *
  by_cases he : 0 ≤ L - 52
  · have a := s1 (by omega)
    have eL : L.toNat = (L - 52).toNat + 52 := by omega
    have hq : 2 ^ 52 ≤ roundHalfEven num (den * 2 ^ (L - 52).toNat) := by
      refine le_trans ?_ (roundHalfEven_ge _ _)
      rw [Nat.le_div_iff_mul_le (by positivity)]
      rw [eL, pow_add] at a
      calc 2 ^ 52 * (den * 2 ^ (L - 52).toNat) = den * (2 ^ (L - 52).toNat * 2 ^ 52) := by ring
        _ ≤ num := a
    unfold Double.ratio scaleBy
    simp only [if_pos he]
    by_cases h0 : 0 ≤ -(L - 52)
    · rw [if_pos h0]
      have e0 : (-(L - 52)).toNat = 0 := by omega
      have e1 : (L - 52).toNat = 0 := by omega
      simp only [e0, e1, pow_zero, mul_one]
      refine le_trans ?_ (roundHalfEven_ge _ _)
      rw [Nat.le_div_iff_mul_le (by omega)]
      exact h
    · rw [if_neg h0]
      simp only [mul_one, neg_neg]
      have e1 : 1 ≤ (L - 52).toNat := by omega
      have : 2 ^ 1 ≤ 2 ^ (L - 52).toNat := Nat.pow_le_pow_right (by norm_num) e1
      have h53 : 2 ^ 52 * 2 ^ 1 ≤ roundHalfEven num (den * 2 ^ (L - 52).toNat)
          * 2 ^ (L - 52).toNat := Nat.mul_le_mul hq this
      have : (2 : Nat) ^ 52 * 2 ^ 1 = 2 ^ 53 := by norm_num
      omega
  · unfold Double.ratio scaleBy
    simp only [if_neg he]
    rw [if_pos (by omega)]
    simp only [neg_neg, one_mul]
    refine le_trans ?_ (roundHalfEven_ge _ _)
    rw [Nat.le_div_iff_mul_le (by omega)]
    calc K * 2 ^ (-(L - 52)).toNat * den = K * den * 2 ^ (-(L - 52)).toNat := by ring
      _ ≤ num * 2 ^ (-(L - 52)).toNat := Nat.mul_le_mul_right _ h

theorem elapsedSeconds_neg (e : Int) (h : Representable e) :
    (elapsedSeconds e).neg = decide (e < 0) := by
  unfold elapsedSeconds Double.divNat Double.ofInt
  rw [wrap64_eq_self h, roundDouble_neg, roundDouble_neg]

/-- Below `2^53` ticks the `double` of the elapsed seconds has the whole part of
the exact quotient. -/
theorem elapsedSeconds_floor (n : Nat) (h0 : n ≠ 0) (h1 : n < 2 ^ 53) :
    (elapsedSeconds (n : Int)).ratio.1 / (elapsedSeconds (n : Int)).ratio.2
      = n / 1000000000 := by
  have hr : Representable (n : Int) := by
    unfold Representable
    have : (2 : Nat) ^ 53 = 9007199254740992 := by norm_num
    omega
  obtain ⟨c, hc, hx⟩ := Double.ofInt_exact n h0 h1
  unfold elapsedSeconds Double.divNat Double.ofInt
  rw [wrap64_eq_self hr]
  have e1 : decide ((n : Int) < 0) = false := by simp
  simp only [e1, Int.natAbs_ofNat, roundDouble_neg, hx]
  exact roundDouble_div_floor n c h0 hc (by
    have : (2 : Nat) ^ 53 ≤ 2 ^ 24 * 1000000000 := by norm_num
    omega)

theorem Double.geNat_eq (x : Double) (k : Nat) (h : x.neg = false) :
    x.geNat k = decide (k ≤ x.ratio.1 / x.ratio.2) := by
  unfold Double.geNat
  rw [h]
  simp only [Bool.false_eq_true, if_false]
  exact decide_eq_decide.mpr (Nat.le_div_iff_mul_le x.ratio_pos).symm

theorem Double.geNat_of_neg (x : Double) (k : Nat) (h : x.neg = true) (hk : k ≠ 0) :
    x.geNat k = false := by
  unfold Double.geNat
  rw [h]
  simp [hk]

theorem hourlyDue_iff (e : Int) (hlo : -9223372036854775808 ≤ e) (hhi : e < 9007199254740992) :
    hourlyDue e = true ↔ 3600 * ticksPerSecond ≤ e ∧ e / ticksPerSecond % 3600 = 0 := by
  have hr : Representable e := ⟨hlo, by omega⟩
  rcases lt_trichotomy e 0 with hneg | hz | hpos
  · have h1 : (elapsedSeconds e).neg = true := by
      rw [elapsedSeconds_neg e hr]; simpa using hneg
    unfold hourlyDue
    rw [Double.geNat_of_neg _ _ h1 (by norm_num)]
    unfold ticksPerSecond
    simp only [Bool.false_and, Bool.false_eq_true, false_iff, not_and]
    intro; omega
  · subst hz
    constructor
    · intro h; exact absurd h (by decide)
    · rintro ⟨h, -⟩; exact absurd h (by decide)
  · obtain ⟨n, rfl⟩ := Int.eq_ofNat_of_zero_le (le_of_lt hpos)
    have h0 : n ≠ 0 := by omega
    have h1 : n < 2 ^ 53 := by
      have : (2 : Nat) ^ 53 = 9007199254740992 := by norm_num
      omega
    have hn : (elapsedSeconds (n : Int)).neg = false := by
      rw [elapsedSeconds_neg _ hr]; simp
    have hf := elapsedSeconds_floor n h0 h1
    unfold hourlyDue
    rw [Double.geNat_eq _ _ hn]
    unfold Double.toInt
    simp only [hn, hf, Bool.false_eq_true, if_false]
    have hsmall : n / 1000000000 < 9007200 := by omega
    rw [if_pos (by omega)]
    unfold ticksPerSecond
    simp only [Bool.and_eq_true, decide_eq_true_eq]
    have e1 : ((n / 1000000000 : Nat) : Int).tmod (60 * 60) = ((n / 1000000000 % 3600 : Nat) : Int) := by
      rw [Int.tmod_eq_emod (by omega) (by norm_num)]
      omega
    rw [e1]
    omega

theorem hourlyDue_iff_window (e : Int) (hlo : -9223372036854775808 ≤ e)
    (hhi : e < 9007199254740992) :
    hourlyDue e = true ↔
      ∃ k : Int, 1 ≤ k ∧ k * 3600 * ticksPerSecond ≤ e
        ∧ e < k * 3600 * ticksPerSecond + ticksPerSecond := by
  rw [hourlyDue_iff e hlo hhi]
  unfold ticksPerSecond
  constructor
  · rintro ⟨a, b⟩
    exact ⟨e / 1000000000 / 3600, by omega, by omega, by omega⟩
  · rintro ⟨k, a, b, c⟩
    have : e / 1000000000 = k * 3600 := by omega
    omega

theorem dailyDue_iff (e : Int) (h : Representable e) :
    dailyDue e = true ↔ 86400 * ticksPerSecond ≤ e := by
  rcases lt_trichotomy e 0 with hneg | hz | hpos
  · have h1 : (elapsedSeconds e).neg = true := by
      rw [elapsedSeconds_neg e h]; simpa using hneg
    unfold dailyDue
    rw [Double.geNat_of_neg _ _ h1 (by norm_num)]
    unfold ticksPerSecond
    simp only [Bool.false_eq_true, false_iff]
    omega
  · subst hz
    constructor
    · intro h; exact absurd h (by decide)
    · intro h; exact absurd h (by decide)
  · obtain ⟨n, rfl⟩ := Int.eq_ofNat_of_zero_le (le_of_lt hpos)
    have h0 : n ≠ 0 := by omega
    have hn : (elapsedSeconds (n : Int)).neg = false := by
      rw [elapsedSeconds_neg _ h]; simp
    unfold dailyDue
    by_cases hbig : 86400000000000 ≤ n
    · have hgoal : 86400 * ticksPerSecond ≤ (n : Int) := by unfold ticksPerSecond; omega
      simp only [hgoal, iff_true]
      unfold Double.geNat
      rw [hn]
      simp only [Bool.false_eq_true, if_false, decide_eq_true_eq]
      unfold elapsedSeconds Double.divNat Double.ofInt
      rw [wrap64_eq_self h]
      have e1 : decide ((n : Int) < 0) = false := by simp
      simp only [e1, Int.natAbs_ofNat, roundDouble_neg]
      have k1 := roundDouble_ge n 1 86400000000000 h0 one_ne_zero (by norm_num) (by omega)
      have hp := (roundDouble false n 1).ratio_pos
      generalize (roundDouble false n 1).ratio = r at *
      apply roundDouble_ge
      · intro hc
        rw [hc] at k1
        omega
      · exact Nat.mul_ne_zero (by omega) (by norm_num)
      · norm_num
      · calc 24 * 60 * 60 * (r.2 * 1000000000) = 86400000000000 * r.2 := by ring
          _ ≤ r.1 := k1
    · have h1 : n < 2 ^ 53 := by
        have : (2 : Nat) ^ 53 = 9007199254740992 := by norm_num
        omega
      have hf := elapsedSeconds_floor n h0 h1
      rw [Double.geNat_eq _ _ hn, hf]
      unfold ticksPerSecond
      simp only [decide_eq_true_eq]
      omega


/-! ## The loop -/

theorem mem_showNatAux (fuel n : Nat) (acc : Str) (c : Char)
    (h : c ∈ showNatAux fuel n acc) : c ∈ acc ∨ ∃ d, c = digitChar d := by
  induction fuel generalizing n acc with
  | zero => exact Or.inl h
  | succ fuel ih =>
    rw [showNatAux_step] at h
    split_ifs at h
    · rcases List.mem_cons.mp h with h | h
      · exact Or.inr ⟨_, h⟩
      · exact Or.inl h
    · rcases ih _ _ h with h | h
      · rcases List.mem_cons.mp h with h | h
        · exact Or.inr ⟨_, h⟩
        · exact Or.inl h
      · exact Or.inr h

theorem newline_not_mem_showInt (n : Int) : '\n' ∉ showInt n := by
  have key : ∀ k : Nat, '\n' ∉ showNat k := by
    intro k h
    rcases mem_showNatAux _ _ _ _ h with h | ⟨d, h⟩
    · simp at h
    · exact digitChar_ne_newline d h.symm
  unfold showInt
  split_ifs
  · intro h
    rcases List.mem_cons.mp h with h | h
    · exact absurd h (by decide)
    · exact key _ h
  · exact key _

theorem newline_not_mem_pad2 (n : Int) : '\n' ∉ pad2 n := by
  unfold pad2
  split_ifs
  · intro h
    rcases List.mem_cons.mp h with h | h
    · exact absurd h (by decide)
    · exact newline_not_mem_showInt _ h
  · exact newline_not_mem_showInt _

theorem newline_not_mem_put_time_all (tm : Tm) : '\n' ∉ put_time tm := by
  unfold put_time
  simp only [List.mem_cons, List.mem_append, List.mem_singleton, not_or, List.not_mem_nil,
    or_false]
  have a := newline_not_mem_pad2
  have b := newline_not_mem_showInt
  exact ⟨⟨⟨⟨⟨⟨⟨by decide, a _⟩, by decide, a _⟩, by decide, b _⟩, by decide, a _⟩, by decide, a _⟩,
    by decide, a _⟩, by decide⟩

theorem newline_not_mem_logLine_all (zone : Zone) (t : Int) {payload : Str} (h : '\n' ∉ payload) :
    '\n' ∉ logLine zone t payload := by
  unfold logLine
  simp only [List.mem_append, not_or]
  exact ⟨⟨newline_not_mem_put_time_all _, by decide⟩, h⟩

theorem runLoop_append {F : Type} (ops : FloatOps F) (zone : Zone) (pre post : List Env)
    (s0 s : State F) (h : runLoop ops zone pre s0 = .running s) :
    runLoop ops zone (pre ++ post) s0 = runLoop ops zone post s := by
  induction pre generalizing s0 with
  | nil =>
    simp only [runLoop] at h
    cases h
    rfl
  | cons env pre ih =>
    simp only [List.cons_append, runLoop] at h ⊢
    cases hit : loopIteration ops zone env s0 with
    | terminated s1 => rw [hit] at h; cases h
    | running s1 =>
      rw [hit] at h
      simp only
      exact ih s1 h

theorem logAverage_snoc {F : Type} (ops : FloatOps F) (zone : Zone) (now : Int) (content : Str)
    (temps : List F) (v : F) :
    logAverage ops zone now true content (temps ++ [v]) =
      content ++ (logLine zone (to_time_t now) (ops.toStr (average ops (temps ++ [v]))) ++ ['\n']) := by
  unfold logAverage
  simp

/-- The state after lines 122-137 for a message that `std::stof` converts. -/
theorem logReading_some {F : Type} (ops : FloatOps F) (zone : Zone) (env : Env) (s : State F)
    (v : F) (hv : ops.stof env.message = some v) :
    logReading ops zone env s = .running
      { hourlyTemperatures := s.hourlyTemperatures ++ [v],
        dailyTemperatures := s.dailyTemperatures ++ [v],
        start := if dailyDue (env.now - s.start) then env.now else s.start,
        stdout := s.stdout ++ (env.message ++ ['\n']),
        hourLog :=
          if hourlyDue (env.now - s.start) then
            logAverage ops zone env.hourAverageNow (env.appendOpen .logFileHour) s.hourLog
              (s.hourlyTemperatures ++ [v])
          else s.hourLog,
        dayLog :=
          if dailyDue (env.now - s.start) then
            logAverage ops zone env.dayAverageNow (env.appendOpen .logFileDay) s.dayLog
              (s.dailyTemperatures ++ [v])
          else s.dayLog,
        allLog := logAll zone env.logAllNow (env.appendOpen .logFileAll) s.allLog env.message } := by
  unfold logReading
  simp only [hv]
  by_cases h1 : hourlyDue (env.now - s.start) = true <;>
  by_cases h2 : dailyDue (env.now - s.start) = true <;>
  simp [h1, h2]

theorem loopIteration_some {F : Type} (ops : FloatOps F) (zone : Zone) (env : Env) (s : State F)
    (v : F) (hne : env.message ≠ []) (hv : ops.stof env.message = some v) :
    ∃ s1, logReading ops zone env s = .running s1 ∧
      loopIteration ops zone env s = .running (rotateLogs zone env s1) ∧
      s1.hourlyTemperatures = s.hourlyTemperatures ++ [v] ∧
      s1.dailyTemperatures = s.dailyTemperatures ++ [v] := by
  refine ⟨_, logReading_some ops zone env s v hv, ?_, rfl, rfl⟩
  unfold loopIteration
  rw [if_neg hne, logReading_some ops zone env s v hv]

theorem loopIteration_sequences {F : Type} (ops : FloatOps F) (zone : Zone) (env : Env)
    (s s1 : State F) (h : loopIteration ops zone env s = .running s1) :
    s1.hourlyTemperatures = s.hourlyTemperatures ++ readings ops [env] ∧
      s1.dailyTemperatures = s.dailyTemperatures ++ readings ops [env] := by
  by_cases hne : env.message = []
  · unfold loopIteration at h
    rw [if_pos hne] at h
    cases h
    simp [readings, hne]
  · cases hv : ops.stof env.message with
    | none =>
      unfold loopIteration logReading at h
      rw [if_neg hne] at h
      simp only [hv] at h
      cases h
    | some v =>
      obtain ⟨s2, _, h2, h3, h4⟩ := loopIteration_some ops zone env s v hne hv
      rw [h2] at h
      cases h
      simp [readings, hne, hv, rotateLogs, h3, h4]

theorem runLoop_sequences {F : Type} (ops : FloatOps F) (zone : Zone) (envs : List Env)
    (s0 s : State F) (h : runLoop ops zone envs s0 = .running s) :
    s.hourlyTemperatures = s0.hourlyTemperatures ++ readings ops envs ∧
      s.dailyTemperatures = s0.dailyTemperatures ++ readings ops envs := by
  induction envs generalizing s0 with
  | nil =>
    simp only [runLoop] at h
    cases h
    simp [readings]
  | cons env envs ih =>
    simp only [runLoop] at h
    cases hit : loopIteration ops zone env s0 with
    | terminated s1 => rw [hit] at h; cases h
    | running s1 =>
      rw [hit] at h
      obtain ⟨a1, a2⟩ := loopIteration_sequences ops zone env s0 s1 hit
      obtain ⟨b1, b2⟩ := ih s1 h
      have e : readings ops (env :: envs) = readings ops [env] ++ readings ops envs := by
        simp [readings, List.filterMap_cons]
        split <;> simp
      rw [b1, b2, a1, a2, e]
      simp

/-! ## The text of a `float` has no line break -/

theorem newline_not_mem_showNat (n : Nat) : '\n' ∉ showNat n := by
  intro h
  rcases mem_showNatAux _ _ _ _ h with h | ⟨d, h⟩
  · simp at h
  · exact digitChar_ne_newline d h.symm

theorem newline_not_mem_fractionPart {s : Str} (h : '\n' ∉ s) : '\n' ∉ fractionPart s := by
  unfold fractionPart
  split_ifs
  · simp
  · intro hc
    rcases List.mem_cons.mp hc with hc | hc
    · exact absurd hc (by decide)
    · exact h ((List.rdropWhile_prefix _ _).subset hc)

theorem newline_not_mem_exponentPart (x : Int) : '\n' ∉ exponentPart x := by
  unfold exponentPart
  intro hc
  rcases List.mem_cons.mp hc with hc | hc
  · exact absurd hc (by decide)
  rcases List.mem_cons.mp hc with hc | hc
  · split_ifs at hc <;> exact absurd hc (by decide)
  split_ifs at hc
  · rcases List.mem_cons.mp hc with hc | hc
    · exact absurd hc (by decide)
    · exact newline_not_mem_showNat _ hc
  · exact newline_not_mem_showNat _ hc

theorem newline_not_mem_formatG (num den : Nat) : '\n' ∉ formatG num den := by
  unfold formatG
  simp only
  generalize (if roundAtDecimal num den (floorLog10 num den - 5) = 1000000 then 100000
    else roundAtDecimal num den (floorLog10 num den - 5)) = n
  generalize (if roundAtDecimal num den (floorLog10 num den - 5) = 1000000 then
    floorLog10 num den + 1 else floorLog10 num den) = x
  have hd := newline_not_mem_showNat n
  have htake : ∀ k, '\n' ∉ (showNat n).take k := fun k hc => hd ((List.take_subset _ _) hc)
  have hdrop : ∀ k, '\n' ∉ (showNat n).drop k := fun k hc => hd ((List.drop_subset _ _) hc)
  split_ifs
  · simp only [List.mem_append, not_or]
    exact ⟨⟨htake _, newline_not_mem_fractionPart (hdrop _)⟩, newline_not_mem_exponentPart _⟩
  · simp only [List.mem_append, not_or]
    exact ⟨htake _, newline_not_mem_fractionPart (hdrop _)⟩
  · intro hc
    rcases List.mem_cons.mp hc with hc | hc
    · exact absurd hc (by decide)
    · refine newline_not_mem_fractionPart ?_ hc
      intro h2
      rcases List.mem_append.mp h2 with h2 | h2
      · have := List.eq_of_mem_replicate h2
        exact absurd this (by decide)
      · exact hd h2

theorem newline_not_mem_toStr (x : Float32) : '\n' ∉ binary32.toStr x := by
  show '\n' ∉ Float32.toStr x
  cases x with
  | nan neg => cases neg <;> decide
  | inf neg => cases neg <;> decide
  | finite neg m e =>
    unfold Float32.toStr
    simp only [List.mem_append, not_or]
    constructor
    · cases neg <;> decide
    · split_ifs
      · decide
      · exact newline_not_mem_formatG _ _
/-! ## Rotation of a file with one more line -/

theorem getLinesAux_append (b : Str) (a cur : Str) (h0 : a = [] → cur = [])
    (hlast : ∀ c ∈ a.getLast?, c = '\n') :
    getLinesAux (a ++ b) cur = getLinesAux a cur ++ getLinesAux b [] := by
  induction a generalizing cur with
  | nil =>
    rw [h0 rfl]
    simp [getLinesAux]
  | cons c a ih =>
    have hl : ∀ x ∈ a.getLast?, x = '\n' := by
      intro x hx
      apply hlast
      cases a with
      | nil => simp at hx
      | cons y t => simpa [List.getLast?_cons_cons] using hx
    by_cases hc : c = '\n'
    · rw [List.cons_append, getLinesAux, if_pos hc, getLinesAux, if_pos hc,
        ih [] (fun _ => rfl) hl]
      simp
    · rw [List.cons_append, getLinesAux, if_neg hc, getLinesAux, if_neg hc]
      apply ih _ _ hl
      intro ha
      subst ha
      exact absurd (hlast c (by simp)) hc

/-- The lines of a file that ends with a line break (or is empty), extended by
one more line. -/
theorem getLines_append_line (old line : Str) (hold : ∀ c ∈ old.getLast?, c = '\n')
    (hline : '\n' ∉ line) :
    getLines (old ++ (line ++ ['\n'])) = getLines old ++ [line] := by
  unfold getLines
  rw [getLinesAux_append _ _ _ (fun _ => rfl) hold]
  congr 1
  have := getLines_append_newline line hline []
  simpa [getLines, getLinesAux] using this

theorem readLogs_acc (zone : Zone) (clock : Nat → Int) (duration : Int) (lines : List Str)
    (i : Nat) (logs : List Log) :
    readLogs zone clock duration lines i logs
      = logs ++ readLogs zone clock duration lines i [] := by
  induction lines generalizing i logs with
  | nil => simp [readLogs]
  | cons line rest ih =>
    rw [readLogs, readLogs, ih]
    conv_rhs => rw [ih]
    split_ifs <;> simp

theorem readLogs_append (zone : Zone) (clock : Nat → Int) (duration : Int) (l1 l2 : List Str)
    (i : Nat) (logs : List Log) :
    readLogs zone clock duration (l1 ++ l2) i logs
      = readLogs zone clock duration l2 (i + l1.length) (readLogs zone clock duration l1 i logs) := by
  induction l1 generalizing i logs with
  | nil => simp [readLogs]
  | cons line rest ih =>
    rw [List.cons_append, readLogs, readLogs, ih, List.length_cons]
    congr 1
    omega

/-- Rotation of a file to which one line has been appended: the rotation of the
file as it was, followed by the new line as `parseLog` and the output loop
rewrite it, if its age is within the retention. -/
theorem clearLogFile_append_line (zone : Zone) (clock : Nat → Int) (duration : Int)
    (old line : Str) (hold : ∀ c ∈ old.getLast?, c = '\n') (hline : '\n' ∉ line) :
    clearLogFile zone clock duration true true (old ++ (line ++ ['\n'])) =
      clearLogFile zone clock duration true true old ++
        (if wrap64 (clock (getLines old).length - (parseLog zone line).timestamp)
            ≤ wrap64 (duration * ticksPerHour) then
          logLine zone (to_time_t (parseLog zone line).timestamp) (parseLog zone line).data
            ++ ['\n']
        else []) := by
  simp only [clearLogFile, if_true, getLines_append_line old line hold hline, readLogs_append,
    writeLogs_eq_append, List.nil_append, Nat.zero_add, readLogs]
  rw [readLogs_acc]
  split_ifs <;> simp

theorem put_time_matches (tm : Tm) (h : tm.Printable) :
    matchesTemplate stampTemplate (put_time tm) = true := by
  obtain ⟨s, mi, hr, d, mo, yr, dst⟩ := tm
  obtain ⟨⟨hs0, hs1⟩, ⟨hmi0, hmi1⟩, ⟨hh0, hh1⟩, ⟨hd0, hd1⟩, ⟨hm0, hm1⟩, ⟨hy0, hy1⟩⟩ := h
  simp only at hs0 hs1 hmi0 hmi1 hh0 hh1 hd0 hd1 hm0 hm1 hy0 hy1
  obtain ⟨s, rfl⟩ := Int.eq_ofNat_of_zero_le hs0
  obtain ⟨mi, rfl⟩ := Int.eq_ofNat_of_zero_le hmi0
  obtain ⟨hr, rfl⟩ := Int.eq_ofNat_of_zero_le hh0
  obtain ⟨d, rfl⟩ := Int.eq_ofNat_of_zero_le (by omega : (0 : Int) ≤ d)
  obtain ⟨m, hm⟩ := Int.eq_ofNat_of_zero_le (by omega : (0 : Int) ≤ mo + 1)
  obtain ⟨y, hy⟩ := Int.eq_ofNat_of_zero_le (by omega : (0 : Int) ≤ yr + 1900)
  obtain rfl : mo = (m : Int) - 1 := by omega
  obtain rfl : yr = (y : Int) - 1900 := by omega
  rw [put_time_digits s mi hr d m y dst (by omega) (by omega) (by omega) (by omega) (by omega)
    (by omega) (by omega)]
  simp [stampTemplate, matchesTemplate, isdigit_digitChar]

/-- The whole seconds of a tick count, in ticks, lie within one second of it. -/
theorem to_time_t_mul_bounds (ts : Int) :
    to_time_t ts * ticksPerSecond ≤ max ts 0 ∧ min ts 0 ≤ to_time_t ts * ticksPerSecond
      ∧ ts - ticksPerSecond < to_time_t ts * ticksPerSecond
      ∧ to_time_t ts * ticksPerSecond < ts + ticksPerSecond := by
  rw [to_time_t_eq]
  unfold ticksPerSecond
  split_ifs <;> omega

/-- The entry that `parseLog` reads from a line that has just been written for
the clock reading `now`, while daylight-saving time is not in effect. -/
theorem parseLog_logLine_fresh {zone : Zone} (htz : zone.Bounded) {now : Int}
    (hrep : Representable now) (hstd : zone.isDst (to_time_t now) = false)
    {message : Str} (hline : '\n' ∉ message) :
    parseLog zone (logLine zone (to_time_t now) message) =
      { timestamp := to_time_t now * ticksPerSecond, data := regexTrim message } := by
  rw [parseLog_logLine zone _ (printable_of_representable htz hrep),
    getlineChars_eq_self (newline_not_mem_skipws hline), regexTrim_skipws]
  have e0 : zone.offsetAt (to_time_t now) - zone.stdOffset = 0 := by
    simp [Zone.offsetAt, hstd]
  rw [e0, add_zero]
  have hb := to_time_t_mul_bounds now
  have hr : Representable (to_time_t now * ticksPerSecond) := by
    unfold Representable at *
    omega
  unfold from_time_t
  rw [wrap64_eq_self hr]

theorem getLines_terminated (lines : List Str) (h : ∀ line ∈ lines, '\n' ∉ line) :
    getLines (lines.map fun line => line ++ ['\n']).flatten = lines := by
  induction lines with
  | nil => rfl
  | cons l rest ih =>
    simp only [List.map_cons, List.flatten_cons, List.append_assoc, List.singleton_append]
    rw [getLines_append_newline _ (h l (List.mem_cons_self _ _)),
      ih (fun x hx => h x (List.mem_cons_of_mem _ hx))]

theorem getLinesAux_no_newline (l cur : Str) (h : '\n' ∉ l) :
    getLinesAux l cur = if cur.reverse ++ l = [] then [] else [cur.reverse ++ l] := by
  induction l generalizing cur with
  | nil => simp [getLinesAux]
  | cons c l ih =>
    have hc : c ≠ '\n' := fun e => h (e ▸ List.mem_cons_self _ _)
    have hl : '\n' ∉ l := fun e => h (List.mem_cons_of_mem _ e)
    rw [getLinesAux, if_neg hc, ih _ hl]
    simp

/-- A last line without its line break is read like a line that has one. -/
theorem getLines_unterminated (content last : Str) (hcontent : ∀ c ∈ content.getLast?, c = '\n')
    (hlast : '\n' ∉ last) (hne : last ≠ []) :
    getLines (content ++ last) = getLines (content ++ (last ++ ['\n'])) := by
  rw [getLines_append_line content last hcontent hlast]
  unfold getLines
  rw [getLinesAux_append _ _ _ (fun _ => rfl) hcontent, getLinesAux_no_newline _ _ hlast]
  simp [hne]

/-- Rotation does not depend on whether the last line of the file ends with a
line break. -/
theorem clearLogFile_unterminated (zone : Zone) (clock : Nat → Int) (duration : Int)
    (content last : Str) (hcontent : ∀ c ∈ content.getLast?, c = '\n')
    (hlast : '\n' ∉ last) (hne : last ≠ []) :
    clearLogFile zone clock duration true true (content ++ last)
      = clearLogFile zone clock duration true true (content ++ (last ++ ['\n'])) := by
  simp only [clearLogFile, if_true, getLines_unterminated content last hcontent hlast hne]


/-- C1. Rotation of a file of lines with a fixed clock reading `now` and a
retention of `duration` hours rewrites the file to the lines
`[DD.MM.YYYY HH:MM:SS] - <text>` of exactly those parsed entries whose age
`now - timestamp` is at most the retention, in their original order: every
entry kept satisfies the bound, and every entry that satisfies it is kept, as
often as it occurred; a last line without its line break is treated like the
others.  The ages and the retention are taken to fit the 64-bit tick count in
which the program computes them. -/
theorem clearLogFile_keeps_exactly_recent (zone : Zone) (now duration : Int)
    (lines : List Str) (hlines : ∀ line ∈ lines, '\n' ∉ line)
    (hduration : Representable (duration * ticksPerHour))
    (hage : ∀ line ∈ lines, Representable (now - (parseLog zone line).timestamp)) :
    clearLogFile zone (fun _ => now) duration true true
        (lines.map fun line => line ++ ['\n']).flatten =
      (((lines.map (parseLog zone)).filter
        (fun log => decide (now - log.timestamp ≤ duration * ticksPerHour))).map
        fun log => put_time (localtime zone (to_time_t log.timestamp)) ++ [' ', '-', ' ']
          ++ log.data ++ ['\n']).flatten
    ∧ ((lines.map (parseLog zone)).filter
        (fun log => decide (now - log.timestamp ≤ duration * ticksPerHour))).Sublist
        (lines.map (parseLog zone))
    ∧ (∀ log ∈ (lines.map (parseLog zone)).filter
        (fun log => decide (now - log.timestamp ≤ duration * ticksPerHour)),
        now - log.timestamp ≤ duration * ticksPerHour)
    ∧ (∀ log, now - log.timestamp ≤ duration * ticksPerHour →
        ((lines.map (parseLog zone)).filter
          (fun log => decide (now - log.timestamp ≤ duration * ticksPerHour))).count log
        = (lines.map (parseLog zone)).count log)
    ∧ (∀ init last, lines = init ++ [last] → last ≠ [] →
        clearLogFile zone (fun _ => now) duration true true
            ((init.map fun line => line ++ ['\n']).flatten ++ last)
          = clearLogFile zone (fun _ => now) duration true true
            (lines.map fun line => line ++ ['\n']).flatten) := by
  have hf : (lines.map (parseLog zone)).filter
      (fun log => decide (wrap64 (now - log.timestamp) ≤ wrap64 (duration * ticksPerHour)))
      = (lines.map (parseLog zone)).filter
        (fun log => decide (now - log.timestamp ≤ duration * ticksPerHour)) := by
    apply List.filter_congr
    intro log hlog
    obtain ⟨line, hline, rfl⟩ := List.mem_map.mp hlog
    rw [wrap64_eq_self (hage line hline), wrap64_eq_self hduration]
  refine ⟨?_, List.filter_sublist _, ?_, ?_, ?_⟩
  · rw [clearLogFile_const, getLines_terminated lines hlines, hf]
    simp [logLine]
  · intro log hlog
    simpa using (List.mem_filter.mp hlog).2
  · intro log hlog
    rw [List.count_filter]
    exact decide_eq_true hlog
  · intro init last hsplit hne
    subst hsplit
    have hterm : ∀ c ∈ ((init.map fun line => line ++ ['\n']).flatten).getLast?, c = '\n' := by
      intro c hc
      induction init using List.reverseRecOn with
      | nil => simp at hc
      | append_singleton l a _ =>
        simp only [List.map_append, List.map_cons, List.map_nil, List.flatten_append,
          List.flatten_cons, List.flatten_nil, List.append_nil, ← List.append_assoc,
          List.getLast?_append, List.getLast?_singleton, Option.or, Option.mem_def,
          Option.some.injEq] at hc
        exact hc.symm
    rw [clearLogFile_unterminated zone _ duration _ last hterm
      (hlines last (by simp)) hne]
    simp

theorem clearLogFile_keeps_exactly_recent_witness :
    (∀ line ∈ sampleLines, '\n' ∉ line)
    ∧ Representable (24 * ticksPerHour)
    ∧ (∀ line ∈ sampleLines,
        Representable (1718456400000000000 - (parseLog utc line).timestamp))
    ∧ (sampleLines.map fun line => line ++ ['\n']).flatten
        = ("[14.06.2024 12:59:59] - 20.1\n[15.06.2024 12:00:00] - 23.5  \nnot a log line\n"
            ++ "[15.06.2024 12:30:00] x 24\n").toList
    ∧ clearLogFile utc (fun _ => 1718456400000000000) 24 true true
          ("[14.06.2024 12:59:59] - 20.1\n[15.06.2024 12:00:00] - 23.5  \nnot a log line\n"
            ++ "[15.06.2024 12:30:00] x 24\n").toList
        = "[15.06.2024 12:00:00] - 23.5\n[15.06.2024 12:30:00] - 24\n".toList
    ∧ (sampleLines.map (parseLog utc)).filter
          (fun log => decide (1718456400000000000 - log.timestamp ≤ 24 * ticksPerHour))
        = [{ timestamp := 1718452800000000000, data := "23.5".toList },
            { timestamp := 1718454600000000000, data := "24".toList }]
    ∧ clearLogFile utc (fun _ => 1718456400000000000) 24 true true
          (sampleLines.map fun line => line ++ ['\n']).flatten
        = (((sampleLines.map (parseLog utc)).filter
            (fun log => decide (1718456400000000000 - log.timestamp ≤ 24 * ticksPerHour))).map
            fun log => put_time (localtime utc (to_time_t log.timestamp)) ++ [' ', '-', ' ']
              ++ log.data ++ ['\n']).flatten :=
  ⟨by decide, by decide, by decide, by decide, by decide, by decide,
    (clearLogFile_keeps_exactly_recent utc 1718456400000000000 24 sampleLines (by decide)
      (by decide) (by decide)).1⟩

/-- A file whose input stream cannot be opened is read as no lines: rotation
empties it if it can be opened for writing and leaves it as it is
otherwise. -/
theorem clearLogFile_unreadable (zone : Zone) (clock : Nat → Int) (duration : Int)
    (content : Str) :
    clearLogFile zone clock duration false true content = []
    ∧ clearLogFile zone clock duration false false content = content
    ∧ clearLogFile zone clock duration true false content = content := by
  simp [clearLogFile, readLogs, writeLogs]

/-- Round trip while daylight-saving time is not in effect: a `Log` whose
timestamp is a whole number of seconds and whose text has no line break,
written as `[DD.MM.YYYY HH:MM:SS] - <text>` and parsed again by `parseLog`,
yields the same timestamp and the text with the surrounding whitespace
removed. -/
theorem parseLog_logLine_roundtrip_standard_time (zone : Zone) (htz : zone.Bounded) (log : Log)
    (hrep : Representable log.timestamp) (hwhole : log.timestamp % ticksPerSecond = 0)
    (hstd : zone.isDst (to_time_t log.timestamp) = false)
    (hline : '\n' ∉ log.data) :
    (parseLog zone (logLine zone (to_time_t log.timestamp) log.data)).timestamp = log.timestamp
    ∧ (parseLog zone (logLine zone (to_time_t log.timestamp) log.data)).data
        = regexTrim log.data := by
  rw [parseLog_logLine zone _ (printable_of_representable htz hrep)]
  have e0 : zone.offsetAt (to_time_t log.timestamp) - zone.stdOffset = 0 := by
    simp [Zone.offsetAt, hstd]
  constructor
  · show from_time_t (to_time_t log.timestamp + (zone.offsetAt (to_time_t log.timestamp)
      - zone.stdOffset)) = log.timestamp
    rw [e0, add_zero]
    exact from_time_t_to_time_t hrep hwhole
  · show regexTrim (getlineChars (skipws log.data)) = regexTrim log.data
    rw [getlineChars_eq_self (newline_not_mem_skipws hline), regexTrim_skipws]

/-- Round trip in general: the timestamp read back is the one written, in whole
seconds, moved by the difference between the offset in effect at it and the
standard offset; the text comes back without its surrounding whitespace. -/
theorem parseLog_logLine_roundtrip_shift (zone : Zone) (htz : zone.Bounded) (log : Log)
    (hrep : Representable log.timestamp) (hline : '\n' ∉ log.data) :
    parseLog zone (logLine zone (to_time_t log.timestamp) log.data) =
      { timestamp := from_time_t (to_time_t log.timestamp
          + (zone.offsetAt (to_time_t log.timestamp) - zone.stdOffset)),
        data := regexTrim log.data } := by
  rw [parseLog_logLine zone _ (printable_of_representable htz hrep),
    getlineChars_eq_self (newline_not_mem_skipws hline), regexTrim_skipws]

/-- C2 at a failing input. In Central European time the entry of 15.06.2024
10:00:00 UTC with the text `23.5` is written as `[15.06.2024 12:00:00] - 23.5`,
and `parseLog` reads that line as 15.06.2024 11:00:00 UTC: the timestamp comes
back one hour later, because `parseLog` hands `mktime` a `tm` whose `tm_isdst`
is 0 while daylight-saving time is in effect. -/
theorem roundtrip_moves_timestamp_under_dst :
    Representable 1718445600000000000
    ∧ (1718445600000000000 : Int) % ticksPerSecond = 0
    ∧ logLine centralEurope2024 (to_time_t 1718445600000000000) ['2', '3', '.', '5']
        = "[15.06.2024 12:00:00] - 23.5".toList
    ∧ parseLog centralEurope2024 "[15.06.2024 12:00:00] - 23.5".toList
        = { timestamp := 1718449200000000000, data := ['2', '3', '.', '5'] }
    ∧ (parseLog centralEurope2024
        (logLine centralEurope2024 (to_time_t 1718445600000000000)
          ['2', '3', '.', '5'])).timestamp ≠ 1718445600000000000 := by
  decide

/-- Idempotence while daylight-saving time is not in effect at any entry and
every parsed timestamp is a whole number of seconds (the conversion from
seconds has not left the 64-bit range): with the same clock reading and the
same retention, rotating a file that has just been rotated leaves it as it
is. -/
theorem clearLogFile_idempotent_standard_time (zone : Zone) (now duration : Int)
    (htz : zone.Bounded) (content : Str)
    (hwhole : ∀ line ∈ getLines content, (parseLog zone line).timestamp % ticksPerSecond = 0)
    (hstd : ∀ line ∈ getLines content,
      zone.isDst (to_time_t (parseLog zone line).timestamp) = false) :
    clearLogFile zone (fun _ => now) duration true true
        (clearLogFile zone (fun _ => now) duration true true content)
      = clearLogFile zone (fun _ => now) duration true true content := by
  have hst : ∀ log ∈ ((getLines content).map (parseLog zone)).filter
      (fun log => decide (wrap64 (now - log.timestamp) ≤ wrap64 (duration * ticksPerHour))),
      log.Stable zone := by
    intro log hlog
    obtain ⟨line, hline, rfl⟩ := List.mem_map.mp (List.mem_filter.mp hlog).1
    exact parseLog_stable htz line (hwhole line hline) (hstd line hline)
  rw [clearLogFile_const zone now duration content, clearLogFile_const,
    parse_written_lines _ hst, List.filter_filter]
  simp

/-- An instance of idempotence in UTC on a file of four lines: the first pass
drops the old entry and the line that is no entry and normalises the other
two, the second pass changes nothing. -/
theorem clearLogFile_idempotent_standard_time_example :
    clearLogFile utc (fun _ => 1718456400000000000) 24 true true sampleLog
        = "[15.06.2024 12:00:00] - 23.5\n[15.06.2024 12:30:00] - 24\n".toList
    ∧ clearLogFile utc (fun _ => 1718456400000000000) 24 true true
        (clearLogFile utc (fun _ => 1718456400000000000) 24 true true sampleLog)
      = clearLogFile utc (fun _ => 1718456400000000000) 24 true true sampleLog :=
  ⟨by decide,
    clearLogFile_idempotent_standard_time utc 1718456400000000000 24
      ⟨⟨by decide, by decide⟩, ⟨by decide, by decide⟩⟩ sampleLog (by decide) (by decide)⟩

/-- C3 at a failing input. In Central European time, at 15.06.2024 10:30:00 UTC
and with a retention of 24 hours, rotating the file that holds the one line
`[15.06.2024 12:00:00] - 23.5` writes `[15.06.2024 13:00:00] - 23.5`, and
rotating that file again writes `[15.06.2024 14:00:00] - 23.5`: the second
rotation does not leave its input as it is. -/
theorem rotation_moves_entries_under_dst :
    clearLogFile centralEurope2024 (fun _ => 1718447400000000000) 24 true true
        "[15.06.2024 12:00:00] - 23.5\n".toList
      = "[15.06.2024 13:00:00] - 23.5\n".toList
    ∧ clearLogFile centralEurope2024 (fun _ => 1718447400000000000) 24 true true
        "[15.06.2024 13:00:00] - 23.5\n".toList
      = "[15.06.2024 14:00:00] - 23.5\n".toList
    ∧ clearLogFile centralEurope2024 (fun _ => 1718447400000000000) 24 true true
        (clearLogFile centralEurope2024 (fun _ => 1718447400000000000) 24 true true
          "[15.06.2024 12:00:00] - 23.5\n".toList)
      ≠ clearLogFile centralEurope2024 (fun _ => 1718447400000000000) 24 true true
          "[15.06.2024 12:00:00] - 23.5\n".toList := by
  decide

/-- C5. A non-empty message that `std::stof` does not convert ends the process in
the iteration that reads it: the message has been echoed and passed to `logAll`,
nothing else has happened, and whatever the later inputs would be, the run ends
in that state. -/
theorem unparsable_message_terminates {F : Type} (ops : FloatOps F) (zone : Zone)
    (pre post : List Env) (env : Env) (s0 s : State F)
    (hrun : runLoop ops zone pre s0 = .running s)
    (hne : env.message ≠ []) (hbad : ops.stof env.message = none) :
    loopIteration ops zone env s = .terminated
        { s with
          stdout := s.stdout ++ (env.message ++ ['\n']),
          allLog := logAll zone env.logAllNow (env.appendOpen .logFileAll) s.allLog env.message }
    ∧ runLoop ops zone (pre ++ env :: post) s0 = loopIteration ops zone env s := by
  have h1 : loopIteration ops zone env s = .terminated
      { s with
        stdout := s.stdout ++ (env.message ++ ['\n']),
        allLog := logAll zone env.logAllNow (env.appendOpen .logFileAll) s.allLog env.message } := by
    unfold loopIteration logReading
    rw [if_neg hne]
    simp only [hbad]
  refine ⟨h1, ?_⟩
  rw [runLoop_append ops zone pre (env :: post) s0 s hrun]
  simp only [runLoop, h1]

/-- C6 as amended. A non-empty line without a line break that `std::stof`
converts, read less than an hour after the loop epoch while daylight-saving
time is not in effect, every stream on all.log opening and the rotation
reading the clock within 23 hours after `logAll`: the iteration echoes the
line verbatim to standard output and `logAll` appends
`[DD.MM.YYYY HH:MM:SS] - <line>` to all.log; the rotation that ends the
iteration rewrites all.log, which then holds what rotation retains of its
previous content followed by exactly one new line
`[DD.MM.YYYY HH:MM:SS] - <line without its surrounding whitespace>`, which is
`[DD.MM.YYYY HH:MM:SS] - <line>` for a line that has none; the value is
appended once to each of the two sequences; hour.log and day.log receive no
average line (they are only rotated) and the loop epoch stays. -/
theorem valid_reading_before_first_hour {F : Type} (ops : FloatOps F) (zone : Zone) (env : Env)
    (s : State F) (v : F) (hne : env.message ≠ []) (hv : ops.stof env.message = some v)
    (hline : '\n' ∉ env.message)
    (helapsed : -9223372036854775808 ≤ env.now - s.start
      ∧ env.now - s.start < 3600 * ticksPerSecond)
    (hopen : env.appendOpen .logFileAll = true ∧ env.readOpen .logFileAll = true
      ∧ env.truncOpen .logFileAll = true)
    (hold : ∀ c ∈ s.allLog.getLast?, c = '\n')
    (htz : zone.Bounded) (hrep : Representable env.logAllNow)
    (hstd : zone.isDst (to_time_t env.logAllNow) = false)
    (hclock : ∀ i, env.logAllNow ≤ env.clearClock .logFileAll i
      ∧ env.clearClock .logFileAll i ≤ env.logAllNow + 23 * ticksPerHour) :
    loopIteration ops zone env s = .running (loopIteration ops zone env s).state
    ∧ (loopIteration ops zone env s).state.stdout = s.stdout ++ (env.message ++ ['\n'])
    ∧ (logReading ops zone env s).state.allLog
        = s.allLog ++ (put_time (localtime zone (to_time_t env.logAllNow))
            ++ [' ', '-', ' '] ++ env.message ++ ['\n'])
    ∧ (loopIteration ops zone env s).state.allLog
        = clearLogFile zone (env.clearClock .logFileAll) 24 true true s.allLog
          ++ (put_time (localtime zone (to_time_t env.logAllNow))
            ++ [' ', '-', ' '] ++ regexTrim env.message ++ ['\n'])
    ∧ (regexTrim env.message = env.message →
        (loopIteration ops zone env s).state.allLog
          = clearLogFile zone (env.clearClock .logFileAll) 24 true true s.allLog
            ++ (put_time (localtime zone (to_time_t env.logAllNow))
              ++ [' ', '-', ' '] ++ env.message ++ ['\n']))
    ∧ matchesTemplate stampTemplate (put_time (localtime zone (to_time_t env.logAllNow))) = true
    ∧ '\n' ∉ put_time (localtime zone (to_time_t env.logAllNow))
        ++ [' ', '-', ' '] ++ regexTrim env.message
    ∧ (loopIteration ops zone env s).state.hourlyTemperatures = s.hourlyTemperatures ++ [v]
    ∧ (loopIteration ops zone env s).state.dailyTemperatures = s.dailyTemperatures ++ [v]
    ∧ (loopIteration ops zone env s).state.hourLog
        = clearLogFile zone (env.clearClock .logFileHour) (24 * 30)
            (env.readOpen .logFileHour) (env.truncOpen .logFileHour) s.hourLog
    ∧ (loopIteration ops zone env s).state.dayLog
        = clearLogFile zone (env.clearClock .logFileDay) (24 * 365)
            (env.readOpen .logFileDay) (env.truncOpen .logFileDay) s.dayLog
    ∧ (loopIteration ops zone env s).state.start = s.start := by
  obtain ⟨hoa, hor, hot⟩ := hopen
  have hh : hourlyDue (env.now - s.start) = false := by
    rw [Bool.eq_false_iff, Ne, hourlyDue_iff _ helapsed.1 (by
      have := helapsed.2; unfold ticksPerSecond at this; omega)]
    have := helapsed.2
    omega
  have hd : dailyDue (env.now - s.start) = false := by
    rw [Bool.eq_false_iff, Ne, dailyDue_iff _ ⟨helapsed.1, by
      have := helapsed.2; unfold ticksPerSecond at this; omega⟩]
    have := helapsed.2
    unfold ticksPerSecond at *
    omega
  have hr := logReading_some ops zone env s v hv
  have hl : loopIteration ops zone env s = .running (rotateLogs zone env
      (logReading ops zone env s).state) := by
    unfold loopIteration
    rw [if_neg hne, hr]
    rfl
  have hfresh := parseLog_logLine_fresh htz hrep hstd hline
  have hb := to_time_t_mul_bounds env.logAllNow
  have hkeep : wrap64 (env.clearClock .logFileAll (getLines s.allLog).length
      - to_time_t env.logAllNow * ticksPerSecond) ≤ wrap64 (24 * ticksPerHour) := by
    have hc := hclock (getLines s.allLog).length
    have r1 : Representable (env.clearClock .logFileAll (getLines s.allLog).length
        - to_time_t env.logAllNow * ticksPerSecond) := by
      unfold Representable ticksPerHour ticksPerSecond at *
      omega
    have r2 : Representable (24 * ticksPerHour) := by
      unfold Representable ticksPerHour ticksPerSecond
      omega
    rw [wrap64_eq_self r1, wrap64_eq_self r2]
    unfold ticksPerHour ticksPerSecond at *
    omega
  have hback : to_time_t (to_time_t env.logAllNow * ticksPerSecond) = to_time_t env.logAllNow := by
    unfold to_time_t ticksPerSecond
    exact Int.mul_tdiv_cancel _ (by decide)
  have hrot := clearLogFile_append_line zone (env.clearClock .logFileAll) 24 s.allLog
    (logLine zone (to_time_t env.logAllNow) env.message) hold
    (newline_not_mem_logLine_all zone _ hline)
  rw [hfresh] at hrot
  simp only [hback, if_pos hkeep, logLine] at hrot
  rw [hl, hr]
  simp only [Outcome.state, rotateLogs, hh, hd, Bool.false_eq_true, if_false, logAll, hoa, hor,
    hot, if_true, logLine]
  refine ⟨trivial, trivial, trivial, hrot, ?_,
    put_time_matches _ (printable_of_representable htz hrep),
    ?_, trivial, trivial, trivial, trivial, trivial⟩
  · intro htrim
    rw [hrot, htrim]
  · have := newline_not_mem_logLine_all zone (to_time_t env.logAllNow)
      (newline_not_mem_regexTrim hline)
    simpa [logLine] using this

/-- C7. The daily average and the loop epoch in one iteration.  In an iteration
that processes a valid non-empty reading the daily average, the sum of all
daily samples divided by their count, is appended to day.log exactly when at
least 86400 seconds have elapsed since the loop epoch, and exactly then the
epoch becomes the current time; the rotation that ends the iteration then
rewrites day.log.  In every other iteration (an empty read, or a message that
`std::stof` rejects) day.log and the epoch are left as they are. -/
theorem daily_average_iff_day_elapsed {F : Type} (ops : FloatOps F) (zone : Zone) (env : Env)
    (s : State F) (hopen : env.appendOpen .logFileDay = true)
    (hrep : Representable (env.now - s.start)) :
    (∀ v, env.message ≠ [] → ops.stof env.message = some v →
      loopIteration ops zone env s = .running (loopIteration ops zone env s).state
      ∧ (logReading ops zone env s).state.dayLog =
          (if 86400 * ticksPerSecond ≤ env.now - s.start then
            s.dayLog ++ (put_time (localtime zone (to_time_t env.dayAverageNow))
              ++ [' ', '-', ' ']
              ++ ops.toStr (ops.div ((s.dailyTemperatures ++ [v]).foldl ops.add ops.zero)
                  (ops.ofNat (s.dailyTemperatures ++ [v]).length))
              ++ ['\n'])
          else s.dayLog)
      ∧ ((logReading ops zone env s).state.dayLog ≠ s.dayLog
          ↔ 86400 * ticksPerSecond ≤ env.now - s.start)
      ∧ (loopIteration ops zone env s).state.dayLog =
          clearLogFile zone (env.clearClock .logFileDay) (24 * 365)
            (env.readOpen .logFileDay) (env.truncOpen .logFileDay)
            (logReading ops zone env s).state.dayLog
      ∧ (loopIteration ops zone env s).state.start =
          (if 86400 * ticksPerSecond ≤ env.now - s.start then env.now else s.start))
    ∧ (env.message = [] ∨ ops.stof env.message = none →
        (loopIteration ops zone env s).state.dayLog = s.dayLog
        ∧ (loopIteration ops zone env s).state.start = s.start)
    ∧ ((loopIteration ops zone env s).state.start ≠ s.start →
        env.message ≠ [] ∧ (ops.stof env.message).isSome = true
          ∧ 86400 * ticksPerSecond ≤ env.now - s.start) := by
  have hnone : env.message = [] ∨ ops.stof env.message = none →
      (loopIteration ops zone env s).state.dayLog = s.dayLog
        ∧ (loopIteration ops zone env s).state.start = s.start := by
    intro h
    by_cases hne : env.message = []
    · unfold loopIteration
      rw [if_pos hne]
      exact ⟨rfl, rfl⟩
    · have hbad : ops.stof env.message = none := h.resolve_left hne
      unfold loopIteration logReading
      rw [if_neg hne]
      simp only [hbad]
      exact ⟨rfl, rfl⟩
  have hsome : ∀ v, env.message ≠ [] → ops.stof env.message = some v →
      loopIteration ops zone env s = .running (rotateLogs zone env
        (logReading ops zone env s).state)
      ∧ (logReading ops zone env s).state.dayLog =
          (if 86400 * ticksPerSecond ≤ env.now - s.start then
            s.dayLog ++ (put_time (localtime zone (to_time_t env.dayAverageNow))
              ++ [' ', '-', ' ']
              ++ ops.toStr (ops.div ((s.dailyTemperatures ++ [v]).foldl ops.add ops.zero)
                  (ops.ofNat (s.dailyTemperatures ++ [v]).length))
              ++ ['\n'])
          else s.dayLog)
      ∧ (logReading ops zone env s).state.start =
          (if 86400 * ticksPerSecond ≤ env.now - s.start then env.now else s.start) := by
    intro v hne hv
    have hr := logReading_some ops zone env s v hv
    refine ⟨?_, ?_, ?_⟩
    · unfold loopIteration
      rw [if_neg hne, hr]
      rfl
    · rw [hr]
      simp only [Outcome.state]
      by_cases hd : 86400 * ticksPerSecond ≤ env.now - s.start
      · rw [if_pos ((dailyDue_iff _ hrep).mpr hd), if_pos hd, hopen, logAverage_snoc]
        simp [logLine, average]
      · have hd2 : ¬ dailyDue (env.now - s.start) = true := fun h =>
          hd ((dailyDue_iff _ hrep).mp h)
        rw [if_neg hd2, if_neg hd]
    · rw [hr]
      simp only [Outcome.state]
      by_cases hd : 86400 * ticksPerSecond ≤ env.now - s.start
      · rw [if_pos ((dailyDue_iff _ hrep).mpr hd), if_pos hd]
      · have hd2 : ¬ dailyDue (env.now - s.start) = true := fun h =>
          hd ((dailyDue_iff _ hrep).mp h)
        rw [if_neg hd2, if_neg hd]
  refine ⟨?_, hnone, ?_⟩
  · intro v hne hv
    obtain ⟨h1, h2, h3⟩ := hsome v hne hv
    refine ⟨by rw [h1]; rfl, h2, ?_, by rw [h1]; rfl, by rw [h1]; exact h3⟩
    rw [h2]
    by_cases hd : 86400 * ticksPerSecond ≤ env.now - s.start
    · simp [hd]
    · simp [hd]
  · intro hchg
    by_cases hne : env.message = []
    · exact absurd (hnone (Or.inl hne)).2 hchg
    · cases hv : ops.stof env.message with
      | none => exact absurd (hnone (Or.inr hv)).2 hchg
      | some v =>
        obtain ⟨h1, -, h3⟩ := hsome v hne hv
        refine ⟨hne, rfl, ?_⟩
        by_contra hd
        apply hchg
        rw [h1]
        show (logReading ops zone env s).state.start = s.start
        rw [h3, if_neg hd]
/-- C10. The two sequences are only ever appended to: after any number of
iterations from the start of the loop they hold every value read so far, and
an hourly or daily average written by the next iteration is the average of
all of them, the values already covered by earlier averages included. -/
theorem averages_cover_every_reading {F : Type} (ops : FloatOps F) (zone : Zone)
    (pre : List Env) (env : Env) (start : Int) (hourLog dayLog allLog : Str) (s : State F)
    (v : F)
    (hrun : runLoop ops zone pre (initialState F start hourLog dayLog allLog) = .running s)
    (hne : env.message ≠ []) (hv : ops.stof env.message = some v)
    (hopenHour : env.appendOpen .logFileHour = true)
    (hopenDay : env.appendOpen .logFileDay = true) :
    s.hourlyTemperatures = readings ops pre
    ∧ s.dailyTemperatures = readings ops pre
    ∧ ∃ s1, logReading ops zone env s = .running s1
      ∧ loopIteration ops zone env s = .running (rotateLogs zone env s1)
      ∧ s1.hourlyTemperatures = readings ops pre ++ [v]
      ∧ s1.dailyTemperatures = readings ops pre ++ [v]
      ∧ (rotateLogs zone env s1).hourlyTemperatures = readings ops (pre ++ [env])
      ∧ (rotateLogs zone env s1).dailyTemperatures = readings ops (pre ++ [env])
      ∧ (hourlyDue (env.now - s.start) = true →
          s1.hourLog = s.hourLog ++
            (logLine zone (to_time_t env.hourAverageNow)
              (ops.toStr (average ops (readings ops pre ++ [v]))) ++ ['\n']))
      ∧ (dailyDue (env.now - s.start) = true →
          s1.dayLog = s.dayLog ++
            (logLine zone (to_time_t env.dayAverageNow)
              (ops.toStr (average ops (readings ops pre ++ [v]))) ++ ['\n'])) := by
  obtain ⟨a1, a2⟩ := runLoop_sequences ops zone pre _ s hrun
  simp only [initialState, List.nil_append] at a1 a2
  obtain ⟨s1, h1, h2, h3, h4⟩ := loopIteration_some ops zone env s v hne hv
  have e : readings ops (pre ++ [env]) = readings ops pre ++ [v] := by
    simp [readings, List.filterMap_append, hne, hv]
  refine ⟨a1, a2, s1, h1, h2, by rw [h3, a1], by rw [h4, a2], ?_, ?_, ?_, ?_⟩
  · rw [e, ← a1, ← h3]; rfl
  · rw [e, ← a2, ← h4]; rfl
  · intro hd
    rw [logReading_some ops zone env s v hv] at h1
    cases h1
    simp only [hd, if_true, hopenHour, logAverage_snoc, a1]
  · intro hd
    rw [logReading_some ops zone env s v hv] at h1
    cases h1
    simp only [hd, if_true, hopenDay, logAverage_snoc, a2]

/-- C8 as amended. The hourly average is written by a point-in-time test and not
once per boundary: an iteration that writes it appends exactly one line to
hour.log and does so within the first second after a whole number of hours
since the loop epoch, and two iterations under the same loop epoch that both
write it for the same hour boundary read the clock less than one second
apart.  Stated for elapsed times below `2^53` ticks (104 days), which the
`double` of the program holds exactly. -/
theorem hourly_average_same_boundary_within_one_second {F : Type} (ops : FloatOps F)
    (zone : Zone) (env1 env2 : Env) (s1 s2 t1 t2 : State F)
    (hfmt : ∀ x, '\n' ∉ ops.toStr x)
    (h1 : logReading ops zone env1 s1 = .running t1)
    (h2 : logReading ops zone env2 s2 = .running t2)
    (hepoch : s1.start = s2.start)
    (hboundary : (env1.now - s1.start) / (3600 * ticksPerSecond)
      = (env2.now - s2.start) / (3600 * ticksPerSecond))
    (hbound1 : -9223372036854775808 ≤ env1.now - s1.start
      ∧ env1.now - s1.start < 9007199254740992)
    (hbound2 : -9223372036854775808 ≤ env2.now - s2.start
      ∧ env2.now - s2.start < 9007199254740992)
    (hw1 : t1.hourLog ≠ s1.hourLog) (hw2 : t2.hourLog ≠ s2.hourLog) :
    (∃ line, '\n' ∉ line ∧ t1.hourLog = s1.hourLog ++ (line ++ ['\n']))
    ∧ (∃ line, '\n' ∉ line ∧ t2.hourLog = s2.hourLog ++ (line ++ ['\n']))
    ∧ (∃ k : Int, 1 ≤ k ∧ k * 3600 * ticksPerSecond ≤ env1.now - s1.start
        ∧ env1.now - s1.start < k * 3600 * ticksPerSecond + ticksPerSecond
        ∧ k * 3600 * ticksPerSecond ≤ env2.now - s2.start
        ∧ env2.now - s2.start < k * 3600 * ticksPerSecond + ticksPerSecond)
    ∧ env1.now - env2.now < ticksPerSecond ∧ env2.now - env1.now < ticksPerSecond := by
  have key : ∀ (env : Env) (s t : State F), logReading ops zone env s = .running t →
      t.hourLog ≠ s.hourLog →
      hourlyDue (env.now - s.start) = true ∧
      ∃ line, '\n' ∉ line ∧ t.hourLog = s.hourLog ++ (line ++ ['\n']) := by
    intro env s t h hw
    cases hv : ops.stof env.message with
    | none =>
      unfold logReading at h
      simp only [hv] at h
      cases h
    | some v =>
      rw [logReading_some ops zone env s v hv] at h
      cases h
      by_cases hd : hourlyDue (env.now - s.start) = true
      · refine ⟨hd, ?_⟩
        simp only [hd, if_true] at hw ⊢
        cases ho : env.appendOpen .logFileHour with
        | false =>
          rw [ho] at hw
          simp [logAverage] at hw
        | true =>
          rw [logAverage_snoc]
          exact ⟨_, newline_not_mem_logLine_all zone _ (hfmt _), rfl⟩
      · simp only [hd, if_false, Bool.false_eq_true] at hw
        exact absurd rfl hw
  obtain ⟨d1, l1⟩ := key env1 s1 t1 h1 hw1
  obtain ⟨d2, l2⟩ := key env2 s2 t2 h2 hw2
  obtain ⟨k1, a1, b1, c1⟩ := (hourlyDue_iff_window _ hbound1.1 hbound1.2).mp d1
  obtain ⟨k2, a2, b2, c2⟩ := (hourlyDue_iff_window _ hbound2.1 hbound2.2).mp d2
  unfold ticksPerSecond at *
  have e1 : (env1.now - s1.start) / (3600 * 1000000000) = k1 := by omega
  have e2 : (env2.now - s2.start) / (3600 * 1000000000) = k2 := by omega
  have e3 : k1 = k2 := by rw [← e1, ← e2]; exact hboundary
  subst e3
  exact ⟨l1, l2, ⟨k1, a1, b1, c1, b2, c2⟩, by omega, by omega⟩

/-- C4. For a non-empty sequence of samples `logAverage` appends exactly one line
`[timestamp] - <mean>` to the end of the file and leaves what was there
unchanged; the mean is the sum of the samples (accumulated from `0.0f`) divided
by their count, in `float` arithmetic.  For the samples 20, 22, 24 the payload
is `22`. -/
theorem logAverage_appends_mean {F : Type} (ops : FloatOps F) (zone : Zone) (now : Int) (content : Str)
    (temperatures : List F) (hne : temperatures ≠ [])
    (hfmt : ∀ x, '\n' ∉ ops.toStr x) :
    logAverage ops zone now true content temperatures =
        content ++ (logLine zone (to_time_t now)
          (ops.toStr (ops.div (temperatures.foldl ops.add ops.zero)
            (ops.ofNat temperatures.length))) ++ ['\n'])
    ∧ '\n' ∉ logLine zone (to_time_t now)
          (ops.toStr (ops.div (temperatures.foldl ops.add ops.zero)
            (ops.ofNat temperatures.length)))
    ∧ logAverage binary32 zone now true content
          [Float32.ofNat 20, Float32.ofNat 22, Float32.ofNat 24] =
        content ++ (logLine zone (to_time_t now) ['2', '2'] ++ ['\n']) := by
  refine ⟨?_, newline_not_mem_logLine_all zone _ (hfmt _), ?_⟩
  · unfold logAverage average
    have : temperatures.isEmpty = false := by
      cases temperatures with
      | nil => exact absurd rfl hne
      | cons a t => rfl
    simp [this]
  · have e : binary32.toStr (average binary32
        [Float32.ofNat 20, Float32.ofNat 22, Float32.ofNat 24]) = ['2', '2'] := by decide
    unfold logAverage
    rw [e]
    simp

theorem logAverage_appends_mean_witness :
    [Float32.ofNat 20, Float32.ofNat 22, Float32.ofNat 24] ≠ []
    ∧ (∀ x, '\n' ∉ binary32.toStr x)
    ∧ logAverage binary32 utc sampleStart true "[15.06.2024 08:00:00] - 21.5\n".toList
          [Float32.ofNat 20, Float32.ofNat 22, Float32.ofNat 24]
        = "[15.06.2024 08:00:00] - 21.5\n[15.06.2024 09:00:00] - 22\n".toList :=
  ⟨by decide, newline_not_mem_toStr,
    ((logAverage_appends_mean binary32 utc sampleStart "[15.06.2024 08:00:00] - 21.5\n".toList
      [Float32.ofNat 20, Float32.ofNat 22, Float32.ofNat 24] (by decide)
      newline_not_mem_toStr).1).trans (by decide)⟩

theorem unparsable_message_terminates_witness :
    runLoop binary32 utc [sampleReading] sampleState
      = .running (runLoop binary32 utc [sampleReading] sampleState).state
    ∧ sampleBadReading.message ≠ []
    ∧ binary32.stof sampleBadReading.message = none
    ∧ (runLoop binary32 utc ([sampleReading] ++ sampleBadReading :: [sampleLaterReading])
          sampleState
        = loopIteration binary32 utc sampleBadReading
            (runLoop binary32 utc [sampleReading] sampleState).state)
    ∧ (runLoop binary32 utc [sampleReading, sampleBadReading, sampleLaterReading]
          sampleState).state.stdout = "23.5\nN/A\n".toList :=
  ⟨rfl, by decide, by decide,
    (unparsable_message_terminates binary32 utc [sampleReading] [sampleLaterReading]
      sampleBadReading sampleState _ rfl (by decide) (by decide)).2,
    by decide⟩

theorem valid_reading_before_first_hour_witness :
    sampleLaterReading.message ≠ []
    ∧ binary32.stof sampleLaterReading.message = some (Float32.ofNat 22)
    ∧ '\n' ∉ sampleLaterReading.message
    ∧ (-9223372036854775808 ≤ sampleLaterReading.now - sampleStateAfterReading.start
        ∧ sampleLaterReading.now - sampleStateAfterReading.start < 3600 * ticksPerSecond)
    ∧ sampleStateAfterReading.allLog = "[15.06.2024 09:00:05] - 23.5\n".toList
    ∧ (loopIteration binary32 utc sampleLaterReading sampleStateAfterReading).state.stdout
        = "23.5\n22\n".toList
    ∧ (logReading binary32 utc sampleLaterReading sampleStateAfterReading).state.allLog
        = "[15.06.2024 09:00:05] - 23.5\n[15.06.2024 09:00:20] - 22\n".toList
    ∧ (loopIteration binary32 utc sampleLaterReading sampleStateAfterReading).state.allLog
        = "[15.06.2024 09:00:05] - 23.5\n[15.06.2024 09:00:20] - 22\n".toList
    ∧ (loopIteration binary32 utc sampleLaterReading
          sampleStateAfterReading).state.hourlyTemperatures
        = [.finite false 12320768 (-19), Float32.ofNat 22]
    ∧ (loopIteration binary32 utc sampleLaterReading
          sampleStateAfterReading).state.dailyTemperatures
        = [.finite false 12320768 (-19), Float32.ofNat 22]
    ∧ (loopIteration binary32 utc sampleLaterReading sampleStateAfterReading).state.hourLog = []
    ∧ (loopIteration binary32 utc sampleLaterReading sampleStateAfterReading).state.dayLog = []
    ∧ (loopIteration binary32 utc sampleLaterReading sampleStateAfterReading).state.allLog
        = clearLogFile utc (sampleLaterReading.clearClock .logFileAll) 24 true true
            sampleStateAfterReading.allLog
          ++ (put_time (localtime utc (to_time_t sampleLaterReading.logAllNow))
            ++ [' ', '-', ' '] ++ regexTrim sampleLaterReading.message ++ ['\n']) :=
  ⟨by decide, by decide, by decide, ⟨by decide, by decide⟩, by decide, by decide, by decide,
    by decide, by decide, by decide, by decide, by decide,
    (valid_reading_before_first_hour binary32 utc sampleLaterReading
      sampleStateAfterReading (Float32.ofNat 22) (by decide) (by decide) (by decide)
      ⟨by decide, by decide⟩ ⟨rfl, rfl, rfl⟩ (by decide) ⟨⟨by decide, by decide⟩, by decide,
        by decide⟩ (by decide) (by decide)
      (fun _ => ⟨le_refl _, by
        show sampleLaterReading.logAllNow ≤ sampleLaterReading.logAllNow + 23 * ticksPerHour
        decide⟩)).2.2.2.1⟩

theorem daily_average_iff_day_elapsed_witness :
    sampleDayReading.appendOpen .logFileDay = true
    ∧ Representable (sampleDayReading.now - sampleStateAfterLaterReading.start)
    ∧ sampleStateAfterLaterReading.dailyTemperatures = [Float32.ofNat 22]
    ∧ binary32.stof sampleDayReading.message = some (Float32.ofNat 24)
    ∧ (logReading binary32 utc sampleDayReading sampleStateAfterLaterReading).state.dayLog
        = "[16.06.2024 09:00:00] - 23\n".toList
    ∧ (loopIteration binary32 utc sampleDayReading sampleStateAfterLaterReading).state.dayLog
        = "[16.06.2024 09:00:00] - 23\n".toList
    ∧ (loopIteration binary32 utc sampleDayReading sampleStateAfterLaterReading).state.start
        = 1718528400000000000
    ∧ (loopIteration binary32 utc sampleBadReading sampleStateAfterLaterReading).state.start
        = 1718442000000000000
    ∧ (loopIteration binary32 utc sampleHourReading sampleStateAfterLaterReading).state.start
        = 1718442000000000000
    ∧ (loopIteration binary32 utc sampleHourReading sampleStateAfterLaterReading).state.dayLog
        = []
    ∧ (loopIteration binary32 utc sampleDayReading sampleStateAfterLaterReading).state.start =
        (if 86400 * ticksPerSecond ≤ sampleDayReading.now - sampleStateAfterLaterReading.start
          then sampleDayReading.now else sampleStateAfterLaterReading.start) :=
  ⟨rfl, by decide, by decide, by decide, by decide, by decide, by decide, by decide, by decide,
    by decide,
    ((daily_average_iff_day_elapsed binary32 utc sampleDayReading
      sampleStateAfterLaterReading rfl (by decide)).1 (Float32.ofNat 24) (by decide)
      (by decide)).2.2.2.2⟩

set_option maxRecDepth 8192 in
theorem averages_cover_every_reading_witness :
    runLoop binary32 utc [sampleReading, sampleLaterReading]
        (initialState Float32 sampleStart [] [] [])
      = .running (runLoop binary32 utc [sampleReading, sampleLaterReading] sampleState).state
    ∧ sampleDayReading.message ≠ []
    ∧ binary32.stof sampleDayReading.message = some (Float32.ofNat 24)
    ∧ sampleDayReading.appendOpen .logFileHour = true
    ∧ sampleDayReading.appendOpen .logFileDay = true
    ∧ readings binary32 [sampleReading, sampleLaterReading]
        = [.finite false 12320768 (-19), Float32.ofNat 22]
    ∧ (runLoop binary32 utc [sampleReading, sampleLaterReading] sampleState).state.dailyTemperatures
        = readings binary32 [sampleReading, sampleLaterReading]
    ∧ (logReading binary32 utc sampleDayReading
          (runLoop binary32 utc [sampleReading, sampleLaterReading] sampleState).state).state.dayLog
        = "[16.06.2024 09:00:00] - 23.1667\n".toList :=
  ⟨rfl, by decide, by decide, rfl, rfl, by decide,
    (averages_cover_every_reading binary32 utc [sampleReading, sampleLaterReading]
      sampleDayReading sampleStart [] [] []
      (runLoop binary32 utc [sampleReading, sampleLaterReading] sampleState).state
      (Float32.ofNat 24) rfl (by decide) (by decide) rfl rfl).2.1,
    by decide⟩

theorem hourly_average_same_boundary_within_one_second_witness :
    (∀ x, '\n' ∉ binary32.toStr x)
    ∧ logReading binary32 utc sampleHourReading sampleState
        = .running (logReading binary32 utc sampleHourReading sampleState).state
    ∧ logReading binary32 utc sampleHourReadingAgain
          (loopIteration binary32 utc sampleHourReading sampleState).state
        = .running (logReading binary32 utc sampleHourReadingAgain
            (loopIteration binary32 utc sampleHourReading sampleState).state).state
    ∧ sampleState.start = (loopIteration binary32 utc sampleHourReading sampleState).state.start
    ∧ (sampleHourReading.now - sampleState.start) / (3600 * ticksPerSecond)
        = (sampleHourReadingAgain.now -
            (loopIteration binary32 utc sampleHourReading sampleState).state.start)
          / (3600 * ticksPerSecond)
    ∧ (logReading binary32 utc sampleHourReading sampleState).state.hourLog ≠ sampleState.hourLog
    ∧ (logReading binary32 utc sampleHourReadingAgain
          (loopIteration binary32 utc sampleHourReading sampleState).state).state.hourLog
        ≠ (loopIteration binary32 utc sampleHourReading sampleState).state.hourLog
    ∧ sampleHourReading.now - sampleHourReadingAgain.now < ticksPerSecond
    ∧ sampleHourReadingAgain.now - sampleHourReading.now < ticksPerSecond :=
  ⟨newline_not_mem_toStr, rfl, rfl, by decide, by decide, by decide, by decide,
    (hourly_average_same_boundary_within_one_second binary32 utc sampleHourReading
      sampleHourReadingAgain sampleState
      (loopIteration binary32 utc sampleHourReading sampleState).state _ _
      newline_not_mem_toStr rfl rfl (by decide) (by decide) ⟨by decide, by decide⟩
      ⟨by decide, by decide⟩ (by decide) (by decide)).2.2.2⟩

/-- C8 refuted as stated. Two readings, 3600.2 and 3600.7 seconds after the loop
epoch, are both past the first hour boundary and in the same whole second: the
epoch is still the same when the second one is processed, and each of the two
iterations appends an hourly average, so hour.log holds two lines for the one
boundary. -/
theorem hourly_average_written_twice_for_one_boundary :
    (loopIteration binary32 utc sampleHourReading sampleState).state.start = sampleState.start
    ∧ (sampleHourReading.now - sampleState.start) / (3600 * ticksPerSecond) = 1
    ∧ (sampleHourReadingAgain.now - sampleState.start) / (3600 * ticksPerSecond) = 1
    ∧ (loopIteration binary32 utc sampleHourReading sampleState).state.hourLog
        = "[15.06.2024 10:00:00] - 20\n".toList
    ∧ (runLoop binary32 utc [sampleHourReading, sampleHourReadingAgain] sampleState).state.hourLog
        = "[15.06.2024 10:00:00] - 20\n[15.06.2024 10:00:00] - 21\n".toList := by
  decide

/-- C6 refuted as stated. The reading `23.5` with a trailing carriage return is
a non-empty line that `std::stof` converts, read five seconds after the loop
epoch.  `logAll` appends `[15.06.2024 09:00:05] - 23.5\r`, but the rotation at
the end of the same iteration parses the file and writes the entries back with
the text trimmed: after the iteration all.log holds
`[15.06.2024 09:00:05] - 23.5` and no line `[timestamp] - <line>` with the
line as the device sent it. -/
theorem reading_is_trimmed_by_rotation :
    sampleCrReading.message = ['2', '3', '.', '5', '\r']
    ∧ binary32.stof sampleCrReading.message = some (.finite false 12320768 (-19))
    ∧ sampleCrReading.now - sampleState.start < 3600 * ticksPerSecond
    ∧ (logReading binary32 utc sampleCrReading sampleState).state.allLog
        = "[15.06.2024 09:00:05] - 23.5\r\n".toList
    ∧ (loopIteration binary32 utc sampleCrReading sampleState).state.allLog
        = "[15.06.2024 09:00:05] - 23.5\n".toList
    ∧ "[15.06.2024 09:00:05] - 23.5\r".toList
        ∉ getLines (loopIteration binary32 utc sampleCrReading sampleState).state.allLog
    ∧ ∀ stamp : Str, stamp ++ [' ', '-', ' '] ++ sampleCrReading.message
        ∉ getLines (loopIteration binary32 utc sampleCrReading sampleState).state.allLog := by
  refine ⟨by decide, by decide, by decide, by decide, by decide, by decide, ?_⟩
  intro stamp hmem
  have e : getLines (loopIteration binary32 utc sampleCrReading sampleState).state.allLog
      = ["[15.06.2024 09:00:05] - 23.5".toList] := by decide
  rw [e, List.mem_singleton] at hmem
  have h2 := congrArg List.getLast? hmem
  have e2 : sampleCrReading.message.getLast? = some '\r' := by decide
  have e3 : "[15.06.2024 09:00:05] - 23.5".toList.getLast? = some '5' := by decide
  rw [List.getLast?_append, e2, e3] at h2
  have h3 : some '\r' = some '5' := h2
  exact absurd h3 (by decide)

end TempLogger
